import Mathlib

/-!
Shallow embedding of the LearnPlan repository: the deterministic learning-plan
generator (src/planner.ts) and the business-logic validator (schema.ts,
validatePlan).  JavaScript numbers are embedded as exact rationals; the only
numeric primitive the source uses is Math.round, which for the values at hand
is floor (x + 1/2) (round half toward positive infinity).
-/

namespace LearnPlan

/-- Math.round of JavaScript: round half toward positive infinity. -/
def jsRound (x : ℚ) : ℤ := ⌊x + 1/2⌋

/-- Round a number to two decimal places, as the source's
Math.round (x * 100) / 100. -/
def round100 (x : ℚ) : ℚ := (jsRound (x * 100) : ℚ) / 100

/-- A rational is a finite decimal (its reduced denominator divides a power of
ten).  Every IEEE double the TypeScript program can hold is a finite decimal,
so this predicate carves out exactly the rationals that model JS numbers.
The exponent is taken to be the denominator itself, which is always large
enough; the predicate is decidable. -/
def decFinite (q : ℚ) : Prop := q.den ∣ 10 ^ q.den

instance (q : ℚ) : Decidable (decFinite q) := inferInstanceAs (Decidable (_ ∣ _))

/-! Decimal rendering of numbers, modelling how JavaScript prints a number
into a template literal or into JSON text: an optional minus sign, the integer
digits, and — when the value is not an integer — a point and the fraction
digits with trailing zeros removed. -/

/-- Map a digit value to its character. -/
def digitChar : ℕ → Char
  | 0 => '0' | 1 => '1' | 2 => '2' | 3 => '3' | 4 => '4'
  | 5 => '5' | 6 => '6' | 7 => '7' | 8 => '8' | 9 => '9'
  | _ => '*'

/-- Digit value of a character. -/
def charDigit (c : Char) : ℕ := c.toNat - 48

/-- Decimal digit characters of a natural number, most significant first. -/
def natChars (n : ℕ) : List Char :=
  if n = 0 then ['0'] else ((Nat.digits 10 n).map digitChar).reverse

/-- Decimal rendering of a natural number. -/
def natStr (n : ℕ) : String := ⟨natChars n⟩

/-- Value of a list of digit characters, most significant first. -/
def charsToNat (l : List Char) : ℕ := l.foldl (fun acc c => acc * 10 + charDigit c) 0

/-- Remove factors of ten: trimZeros m e walks down from scale 10 ^ e while the
low digit of m is zero, so that m / 10 ^ e keeps its value but the fraction
digits lose their trailing zeros. -/
def trimZeros : ℕ → ℕ → ℕ × ℕ
  | m, 0 => (m, 0)
  | m, e + 1 => if m % 10 = 0 then trimZeros (m / 10) e else (m, e + 1)

/-- Digits of the nonnegative value N / 10 ^ E: integer part, and (when the
value is not an integer) a point and the fraction digits without trailing
zeros. -/
def decBody (N E : ℕ) : List Char :=
  let ip := N / 10 ^ E
  let me := trimZeros (N % 10 ^ E) E
  natChars ip ++
    (if me.2 = 0 then [] else
      '.' :: (List.replicate (me.2 - (natChars me.1).length) '0' ++ natChars me.1))

/-- Decimal digit characters of a rational number q: sign, integer part, and
(when q is not an integer) a point and the fraction digits without trailing
zeros.  Exact for every finite decimal, which covers every JS number. -/
def decChars (q : ℚ) : List Char :=
  (if q < 0 then ['-'] else []) ++ decBody (|q| * 10 ^ q.den).num.toNat q.den

/-- Decimal rendering of a rational number, as JavaScript prints it. -/
def decStr (q : ℚ) : String := ⟨decChars q⟩

/-! Data model (schema.ts): Task, Week, LearningPlan. -/

/-- Task of schema.ts: title, effort_hours, deliverable. -/
structure Task where
  title : String
  effort_hours : ℚ
  deliverable : String
deriving DecidableEq, Repr

/-- Week of schema.ts: week number, focus, hours, tasks, checkpoint. -/
structure Week where
  week : ℕ
  focus : String
  hours : ℚ
  tasks : List Task
  checkpoint : String
deriving DecidableEq, Repr

/-- LearningPlan of schema.ts. -/
structure LearningPlan where
  topic : String
  level : String
  goal : String
  weeks : ℕ
  hours_per_week : ℚ
  plan : List Week
deriving DecidableEq, Repr

/-- The closed enumeration of business-logic violation kinds. -/
inductive ValidationErrorType where
  | weeks_mismatch
  | hours_mismatch
  | hours_exceeded
deriving DecidableEq, Repr

/-- A validation finding: a kind tag plus a human-readable message. -/
structure ValidationError where
  type : ValidationErrorType
  message : String
deriving DecidableEq, Repr

/-- The weeks_mismatch error of validatePlan, with the source's message. -/
def weeksMismatchError (nPlan weeks : ℕ) : ValidationError :=
  ⟨.weeks_mismatch,
    "plan array has " ++ natStr nPlan ++ " entries but 'weeks' is " ++ natStr weeks ++
      ". They must match exactly."⟩

/-- The hours_mismatch error of validatePlan, naming the week number and both
rounded values, with the source's message. -/
def hoursMismatchError (w : ℕ) (roundedHours roundedSum : ℚ) : ValidationError :=
  ⟨.hours_mismatch,
    "Week " ++ natStr w ++ ": 'hours' is " ++ decStr roundedHours ++
      " but task effort_hours sum to " ++ decStr roundedSum ++ ". They must be equal."⟩

/-- The hours_exceeded error of validatePlan, with the source's message. -/
def hoursExceededError (w : ℕ) (roundedHours hpw : ℚ) : ValidationError :=
  ⟨.hours_exceeded,
    "Week " ++ natStr w ++ ": " ++ decStr roundedHours ++
      "h exceeds the hours_per_week limit of " ++ decStr hpw ++ "h."⟩

/-- Sum of a week's task effort_hours, as the source's
tasks.reduce ((sum, t) => sum + t.effort_hours, 0). -/
def taskSum (wk : Week) : ℚ := wk.tasks.foldl (fun s t => s + t.effort_hours) 0

/-- validatePlan of schema.ts: one accumulated error list — the weeks-count
check, then for every week (in plan order) the hours-sum check and the
hours-budget check, each appending to the same list. -/
def validatePlan (p : LearningPlan) : List ValidationError :=
  let errors : List ValidationError :=
    if p.plan.length ≠ p.weeks then [weeksMismatchError p.plan.length p.weeks] else []
  p.plan.foldl (fun errs wk =>
    let roundedSum := round100 (taskSum wk)
    let roundedHours := round100 wk.hours
    let errs :=
      if |roundedSum - roundedHours| > 1/100 then
        errs ++ [hoursMismatchError wk.week roundedHours roundedSum]
      else errs
    if roundedHours > p.hours_per_week then
      errs ++ [hoursExceededError wk.week roundedHours p.hours_per_week]
    else errs) errors

/-! Planner (planner.ts). -/

/-- The three learning phases. -/
inductive Phase where
  | foundation
  | development
  | application
deriving DecidableEq, Repr

/-- phaseOf of planner.ts.  The source computes ratio = week / total with JS
numbers; within the integer ranges a plan can have, the double arithmetic
agrees with the exact rational arithmetic used here. -/
def phaseOf (week total : ℕ) : Phase :=
  if total = 1 then .application
  else if total = 2 then (if week = 1 then .foundation else .application)
  else
    let ratio : ℚ := (week : ℚ) / (total : ℚ)
    if ratio ≤ 1/3 then .foundation
    else if ratio ≤ 2/3 then .development
    else .application

/-- tasksPerWeek of planner.ts. -/
def tasksPerWeek (hoursPerWeek : ℚ) : ℕ :=
  if hoursPerWeek ≤ 4 then 2 else if hoursPerWeek ≤ 14 then 3 else 4

/-- distributeHours of planner.ts: every bucket gets the one-decimal unit,
except the last, recomputed from the remainder at two decimals.  The source
fills an array of length count and overwrites the last slot; count is always
at least 2 at every call site. -/
def distributeHours (total : ℚ) (count : ℕ) : List ℚ :=
  let unit : ℚ := (jsRound ((total / count) * 10) : ℚ) / 10
  let rest : ℚ := (jsRound ((total - unit * ((count : ℚ) - 1)) * 100) : ℚ) / 100
  List.replicate (count - 1) unit ++ [rest]

/-- A task template: title and deliverable. -/
structure Tpl where
  title : String
  deliverable : String
deriving DecidableEq, Repr

/-- foundationBank of planner.ts: two rotating banks of foundation tasks. -/
def foundationBank (topic : String) (idx : ℕ) : List Tpl :=
  let banks : List (List Tpl) :=
    [ [ ⟨"Set up " ++ topic ++ " development environment and toolchain",
        "Working local environment verified with a hello-world program"⟩,
        ⟨"Study " ++ topic ++ " core concepts and mental model",
        "Written notes covering the 5 most important concepts"⟩,
        ⟨"Complete beginner " ++ topic ++ " exercises",
        "3+ exercises solved and committed to a repo"⟩,
        ⟨"Build a minimal demo project in " ++ topic,
        "Runnable project with a short README"⟩ ],
      [ ⟨"Read the official " ++ topic ++ " getting-started guide",
        "Annotated notes and working code samples from the guide"⟩,
        ⟨"Explore " ++ topic ++ " syntax and common idioms through examples",
        "Personal cheat-sheet of the most common patterns"⟩,
        ⟨"Reproduce 3 programs from the " ++ topic ++ " documentation",
        "3 working programs with comments explaining each line"⟩,
        ⟨"Identify and fill 3 knowledge gaps from this week",
        "Gap list with links to resources and notes for each"⟩ ] ]
  banks.getD (idx % banks.length) []

/-- developmentBank of planner.ts: three rotating banks of development
tasks. -/
def developmentBank (topic : String) (idx : ℕ) : List Tpl :=
  let banks : List (List Tpl) :=
    [ [ ⟨"Study " ++ topic ++ " data structures and common design patterns",
        "Notes plus at least 2 implemented examples"⟩,
        ⟨"Build a feature-complete module using " ++ topic,
        "Tested module with passing unit tests"⟩,
        ⟨"Refactor previous code applying " ++ topic ++ " best practices",
        "Pull request or commit documenting every improvement"⟩,
        ⟨"Read and analyse a popular open-source " ++ topic ++ " project",
        "Summary of 3 patterns or techniques discovered"⟩ ],
      [ ⟨"Study " ++ topic ++ " error handling and edge-case strategies",
        "Error-handling guide with annotated code examples"⟩,
        ⟨"Explore the " ++ topic ++ " standard library and ecosystem",
        "Curated list of 5 useful libraries with usage notes"⟩,
        ⟨"Write tests for the module built last week",
        "Test suite achieving >80% coverage"⟩,
        ⟨"Solve 5 intermediate " ++ topic ++ " exercises",
        "Solutions with written explanation of each approach"⟩ ],
      [ ⟨"Study " ++ topic ++ " performance patterns and profiling tools",
        "Benchmark comparing two implementations with analysis"⟩,
        ⟨"Build a CLI utility in " ++ topic,
        "Usable CLI with help text, flags, and error handling"⟩,
        ⟨"Peer-review or self-review an earlier project",
        "Code-review checklist with all action items resolved"⟩,
        ⟨"Document a " ++ topic ++ " mini-library with a public API",
        "Library with README, usage examples, and passing tests"⟩ ] ]
  banks.getD (idx % banks.length) []

/-- applicationBank of planner.ts: first occurrence is kickoff content, the
last occurrence is wrap-up content, middle occurrences are build-out
content. -/
def applicationBank (topic goal : String) (idx totalAppWeeks : ℕ) : List Tpl :=
  if idx = 0 then
    [ ⟨"Design the capstone project architecture for goal: \"" ++ goal ++ "\"",
      "Architecture diagram, feature list, and tech-decision log"⟩,
      ⟨"Implement the core skeleton of the capstone project",
      "Bootstrapped repo with main modules stubbed out"⟩,
      ⟨"Identify " ++ topic ++ " skills still needed for the capstone",
      "Skills-gap list with a targeted study plan per gap"⟩,
      ⟨"Set up CI and project tooling",
      "Automated tests running on every push"⟩ ]
  else if idx = totalAppWeeks - 1 then
    [ ⟨"Complete and polish the capstone project",
      "Deployed or packaged project with full documentation"⟩,
      ⟨"Write a project retrospective: what you learned and what's next",
      "Published blog post or README retrospective section"⟩,
      ⟨"Share the project and collect feedback",
      "Feedback collected from ≥2 peers or community members"⟩,
      ⟨"Create a personal roadmap for continued growth",
      "Next-steps document listing 3 concrete future goals"⟩ ]
  else
    [ ⟨"Implement the next planned feature set",
      "Feature complete, tested, and merged to main branch"⟩,
      ⟨"Integrate " ++ topic ++ " advanced techniques from the development phase",
      "Refactored capstone section with integration documented"⟩,
      ⟨"Write integration tests and fix any regressions",
      "Full test suite green with no known open bugs"⟩,
      ⟨"Update project documentation and README",
      "Clear README with usage instructions, examples, and screenshots"⟩ ]

/-- focusLine of planner.ts. -/
def focusLine (phase : Phase) (idx : ℕ) (topic goal : String) : String :=
  match phase with
  | .foundation =>
    if idx = 0 then "Introduction & Setup — " ++ topic
    else topic ++ " Fundamentals — Part " ++ natStr (idx + 1)
  | .development =>
    let labels : List String :=
      [ "Core Patterns — " ++ topic,
        "Error Handling & Testing — " ++ topic,
        "Ecosystem & Performance — " ++ topic,
        "Advanced Techniques — " ++ topic ]
    labels.getD (idx % labels.length) ""
  | .application =>
    let labels : List String :=
      [ "Project Design & Kickoff",
        "Core Feature Implementation",
        "Integration & Quality",
        "Final Polish & Portfolio" ]
    labels.getD (min idx (labels.length - 1)) ""

/-- checkpoint of planner.ts. -/
def checkpoint (phase : Phase) (idx : ℕ) (topic goal : String) : String :=
  match phase with
  | .foundation =>
    if idx = 0 then
      "Can explain what " ++ topic ++ " is used for and run a simple program without help"
    else
      "Can write a basic " ++ topic ++ " program independently without consulting notes"
  | .development =>
    let checks : List String :=
      [ "Can apply " ++ topic ++ " patterns to a new problem without referring to notes",
        "Can handle errors and write tests for " ++ topic ++ " code confidently",
        "Can choose the right " ++ topic ++ " library for a given requirement",
        "Can optimise and document " ++ topic ++ " code to a production standard" ]
    checks.getD (idx % checks.length) ""
  | .application => "Capstone progress demonstrates ability to: " ++ goal

/-! JSON model.  generatePlan returns the plan together with
JSON.stringify (result, null, 2); the CLI later re-parses that text.  We model
JSON values as an AST, the stringify call as a printer with two-space
indentation, and JSON.parse as a recursive-descent parser (for the fragment
the program can emit: strings, numbers, arrays, objects). -/

/-- JSON values (the fragment the program emits). -/
inductive Json where
  | str : String → Json
  | num : ℚ → Json
  | arr : List Json → Json
  | obj : List (String × Json) → Json
deriving Repr

/-- Hexadecimal digit character (lowercase, as JSON.stringify emits). -/
def hexDigitChar : ℕ → Char
  | 0 => '0' | 1 => '1' | 2 => '2' | 3 => '3' | 4 => '4'
  | 5 => '5' | 6 => '6' | 7 => '7' | 8 => '8' | 9 => '9'
  | 10 => 'a' | 11 => 'b' | 12 => 'c' | 13 => 'd' | 14 => 'e' | 15 => 'f'
  | _ => '*'

/-- Escape one character inside a JSON string literal, as JSON.stringify
does: quote and backslash get backslash escapes, the five named control
characters get their shorthand, the remaining control characters become
a u-escape, everything else is emitted raw. -/
def escapeChar (c : Char) : List Char :=
  if c = '"' then ['\\', '"']
  else if c = '\\' then ['\\', '\\']
  else if c = '\x08' then ['\\', 'b']
  else if c = '\x0c' then ['\\', 'f']
  else if c = '\n' then ['\\', 'n']
  else if c = '\r' then ['\\', 'r']
  else if c = '\t' then ['\\', 't']
  else if c.toNat < 32 then
    ['\\', 'u', '0', '0', hexDigitChar (c.toNat / 16), hexDigitChar (c.toNat % 16)]
  else [c]

/-- Characters of a JSON string literal: quote, escaped body, quote. -/
def strLitChars (s : String) : List Char :=
  '"' :: (s.data.map escapeChar).flatten ++ ['"']

/-- Indentation at nesting depth d for the two-space indent of
JSON.stringify (value, null, 2). -/
def indentC (d : ℕ) : List Char := List.replicate (2 * d) ' '

mutual

/-- Characters of a JSON value at nesting depth d, exactly as
JSON.stringify (value, null, 2) lays it out. -/
def printVal (d : ℕ) : Json → List Char
  | .str s => strLitChars s
  | .num q => decChars q
  | .arr [] => ['[', ']']
  | .arr (x :: xs) => '[' :: '\n' :: (printItems (d + 1) x xs ++ '\n' :: (indentC d ++ [']']))
  | .obj [] => ['{', '}']
  | .obj (f :: fs) => '{' :: '\n' :: (printFields (d + 1) f fs ++ '\n' :: (indentC d ++ ['}']))
termination_by j => sizeOf j
decreasing_by all_goals (simp_wf <;> omega)

/-- Characters of a nonempty array body: one indented element per line,
separated by commas. -/
def printItems (d : ℕ) (x : Json) (xs : List Json) : List Char :=
  match xs with
  | [] => indentC d ++ printVal d x
  | y :: ys => indentC d ++ printVal d x ++ ',' :: '\n' :: printItems d y ys
termination_by 1 + sizeOf x + sizeOf xs
decreasing_by all_goals (simp_wf <;> omega)

/-- Characters of a nonempty object body: one indented key-value pair per
line, separated by commas. -/
def printFields (d : ℕ) (f : String × Json) (fs : List (String × Json)) : List Char :=
  match fs with
  | [] => indentC d ++ strLitChars f.1 ++ ':' :: ' ' :: printVal d f.2
  | g :: gs => indentC d ++ strLitChars f.1 ++ ':' :: ' ' :: printVal d f.2 ++
      ',' :: '\n' :: printFields d g gs
termination_by 1 + sizeOf f + sizeOf fs
decreasing_by all_goals (obtain ⟨k, v⟩ := f; simp_wf <;> omega)

end

/-- JSON.stringify (value, null, 2) as a string. -/
def jsonStringify (j : Json) : String := ⟨printVal 0 j⟩

/-- JSON whitespace. -/
def isWs (c : Char) : Bool := c = ' ' || c = '\n' || c = '\t' || c = '\r'

/-- Skip JSON whitespace. -/
def skipWs (cs : List Char) : List Char := cs.dropWhile isWs

/-- Value of a hexadecimal digit character. -/
def hexVal (c : Char) : Option ℕ :=
  if c = '0' then some 0 else if c = '1' then some 1
  else if c = '2' then some 2 else if c = '3' then some 3
  else if c = '4' then some 4 else if c = '5' then some 5
  else if c = '6' then some 6 else if c = '7' then some 7
  else if c = '8' then some 8 else if c = '9' then some 9
  else if c = 'a' ∨ c = 'A' then some 10 else if c = 'b' ∨ c = 'B' then some 11
  else if c = 'c' ∨ c = 'C' then some 12 else if c = 'd' ∨ c = 'D' then some 13
  else if c = 'e' ∨ c = 'E' then some 14 else if c = 'f' ∨ c = 'F' then some 15
  else none

/-- Parse the body of a JSON string literal (after the opening quote), up to
and including the closing quote; returns the decoded characters and the
remaining input. -/
def parseStrBody : List Char → Option (List Char × List Char)
  | [] => none
  | c :: rest =>
    if c = '"' then some ([], rest)
    else if c = '\\' then
      match rest with
      | [] => none
      | e :: r =>
        if e = '"' then (parseStrBody r).map (fun p => ('"' :: p.1, p.2))
        else if e = '\\' then (parseStrBody r).map (fun p => ('\\' :: p.1, p.2))
        else if e = '/' then (parseStrBody r).map (fun p => ('/' :: p.1, p.2))
        else if e = 'b' then (parseStrBody r).map (fun p => ('\x08' :: p.1, p.2))
        else if e = 'f' then (parseStrBody r).map (fun p => ('\x0c' :: p.1, p.2))
        else if e = 'n' then (parseStrBody r).map (fun p => ('\n' :: p.1, p.2))
        else if e = 'r' then (parseStrBody r).map (fun p => ('\r' :: p.1, p.2))
        else if e = 't' then (parseStrBody r).map (fun p => ('\t' :: p.1, p.2))
        else if e = 'u' then
          match r with
          | h1 :: h2 :: h3 :: h4 :: r2 =>
            match hexVal h1, hexVal h2, hexVal h3, hexVal h4 with
            | some v1, some v2, some v3, some v4 =>
              let n := ((v1 * 16 + v2) * 16 + v3) * 16 + v4
              if n < 55296 then
                (parseStrBody r2).map (fun p => (Char.ofNat n :: p.1, p.2))
              else none
            | _, _, _, _ => none
          | _ => none
        else none
    else if c.toNat < 32 then none
    else (parseStrBody rest).map (fun p => (c :: p.1, p.2))

/-- Parse a nonempty run of decimal digits: value, digit count, rest. -/
def parseDigits (cs : List Char) : Option (ℕ × ℕ × List Char) :=
  let ds := cs.takeWhile (fun c => c.isDigit)
  if ds.isEmpty then none
  else some (charsToNat ds, ds.length, cs.dropWhile (fun c => c.isDigit))

/-- Parse an unsigned JSON number: integer digits, optionally a point and
fraction digits. -/
def parseNumBody (cs : List Char) : Option (ℚ × List Char) :=
  match parseDigits cs with
  | none => none
  | some (i, _, rest) =>
    match rest with
    | '.' :: rest2 =>
      match parseDigits rest2 with
      | none => none
      | some (f, len, rest3) => some ((i : ℚ) + (f : ℚ) / 10 ^ len, rest3)
    | _ => some ((i : ℚ), rest)

/-- Parse a JSON number, with optional leading minus sign. -/
def parseNum (cs : List Char) : Option (ℚ × List Char) :=
  match cs with
  | c :: cs' =>
    if c = '-' then (parseNumBody cs').map (fun p => (-p.1, p.2))
    else parseNumBody (c :: cs')
  | [] => none

mutual

/-- Parse one JSON value (fuel-indexed recursion; jsonParse supplies enough
fuel for any input it can be handed). -/
def parseVal : ℕ → List Char → Option (Json × List Char)
  | 0, _ => none
  | fuel + 1, cs =>
    match skipWs cs with
    | '"' :: rest => (parseStrBody rest).map (fun p => (Json.str ⟨p.1⟩, p.2))
    | '[' :: rest =>
      (match skipWs rest with
       | ']' :: r => some (Json.arr [], r)
       | _ => (parseElems fuel rest).map (fun p => (Json.arr p.1, p.2)))
    | '{' :: rest =>
      (match skipWs rest with
       | '}' :: r => some (Json.obj [], r)
       | _ => (parseFields fuel rest).map (fun p => (Json.obj p.1, p.2)))
    | other => (parseNum other).map (fun p => (Json.num p.1, p.2))

/-- Parse the elements of a nonempty array body, up to and including the
closing bracket. -/
def parseElems : ℕ → List Char → Option (List Json × List Char)
  | 0, _ => none
  | fuel + 1, cs => do
    let (v, cs1) ← parseVal fuel cs
    match skipWs cs1 with
    | ',' :: cs2 => (parseElems fuel cs2).map (fun p => (v :: p.1, p.2))
    | ']' :: cs2 => some ([v], cs2)
    | _ => none

/-- Parse the fields of a nonempty object body, up to and including the
closing brace. -/
def parseFields : ℕ → List Char → Option (List (String × Json) × List Char)
  | 0, _ => none
  | fuel + 1, cs =>
    match skipWs cs with
    | '"' :: rest => do
      let (k, cs1) ← parseStrBody rest
      match skipWs cs1 with
      | ':' :: cs2 => do
        let (v, cs3) ← parseVal fuel cs2
        match skipWs cs3 with
        | ',' :: cs4 => (parseFields fuel cs4).map (fun p => ((⟨k⟩, v) :: p.1, p.2))
        | '}' :: cs4 => some [((⟨k⟩, v))] |>.map (fun l => (l, cs4))
        | _ => none
      | _ => none
    | _ => none

end

/-- JSON.parse: parse one value and require only whitespace after it. -/
def jsonParse (s : String) : Option Json :=
  match parseVal (s.data.length + 1) s.data with
  | some (j, rest) => if skipWs rest = [] then some j else none
  | none => none

/-- JSON AST of a Task, field order as the source object literal. -/
def taskToJson (t : Task) : Json :=
  .obj [("title", .str t.title), ("effort_hours", .num t.effort_hours),
        ("deliverable", .str t.deliverable)]

/-- JSON AST of a Week, field order as the source object literal. -/
def weekToJson (w : Week) : Json :=
  .obj [("week", .num (w.week : ℚ)), ("focus", .str w.focus), ("hours", .num w.hours),
        ("tasks", .arr (w.tasks.map taskToJson)), ("checkpoint", .str w.checkpoint)]

/-- JSON AST of a LearningPlan, field order as the source object literal. -/
def planToJson (p : LearningPlan) : Json :=
  .obj [("topic", .str p.topic), ("level", .str p.level), ("goal", .str p.goal),
        ("weeks", .num (p.weeks : ℚ)), ("hours_per_week", .num p.hours_per_week),
        ("plan", .arr (p.plan.map weekToJson))]

/-- Read a JSON number back as a natural number (structural parse of an
integer field). -/
def asNat (j : Json) : Option ℕ :=
  match j with
  | .num q => if q.den = 1 ∧ 0 ≤ q.num then some q.num.toNat else none
  | _ => none

/-- Structural parse of a Task from its JSON AST. -/
def taskFromJson : Json → Option Task
  | .obj [("title", .str t), ("effort_hours", .num e), ("deliverable", .str d)] =>
    some ⟨t, e, d⟩
  | _ => none

/-- Structural parse of a Week from its JSON AST. -/
def weekFromJson : Json → Option Week
  | .obj [("week", wn), ("focus", .str f), ("hours", .num h),
          ("tasks", .arr ts), ("checkpoint", .str c)] => do
    let w ← asNat wn
    let tasks ← ts.mapM taskFromJson
    some ⟨w, f, h, tasks, c⟩
  | _ => none

/-- Structural parse of a LearningPlan from its JSON AST. -/
def planFromJson : Json → Option LearningPlan
  | .obj [("topic", .str t), ("level", .str l), ("goal", .str g), ("weeks", wn),
          ("hours_per_week", .num h), ("plan", .arr ws)] => do
    let w ← asNat wn
    let weeks ← ws.mapM weekFromJson
    some ⟨t, l, g, w, h, weeks⟩
  | _ => none

mutual

/-- Every number in the JSON value is a finite decimal (true of every value
the program can build, since JS numbers are binary floats). -/
def saneVal : Json → Bool
  | .str _ => true
  | .num q => decide (decFinite q)
  | .arr l => saneList l
  | .obj l => saneFields l

/-- saneVal over a list of values. -/
def saneList : List Json → Bool
  | [] => true
  | x :: xs => saneVal x && saneList xs

/-- saneVal over object fields. -/
def saneFields : List (String × Json) → Bool
  | [] => true
  | f :: fs => saneVal f.2 && saneFields fs

end

mutual

/-- Fuel measure of a JSON value for the parser. -/
def jsize : Json → ℕ
  | .str _ => 1
  | .num _ => 1
  | .arr l => 1 + lsize l
  | .obj l => 1 + fsize l

/-- Fuel measure of an array body. -/
def lsize : List Json → ℕ
  | [] => 1
  | x :: xs => 1 + jsize x + lsize xs

/-- Fuel measure of an object body. -/
def fsize : List (String × Json) → ℕ
  | [] => 1
  | f :: fs => 1 + jsize f.2 + fsize fs

end

/-! The generator's main loop. -/

/-- PlanInputs of planner.ts.  weeks is documented as a positive integer and
hours_per_week as a positive number. -/
structure PlanInputs where
  topic : String
  level : String
  goal : String
  weeks : ℕ
  hours_per_week : ℚ
  constraints : String
deriving DecidableEq, Repr

/-- PlanResult of planner.ts: the structured plan and its JSON text. -/
structure PlanResult where
  plan : LearningPlan
  rawJson : String
deriving Repr

/-- Per-phase occurrence counters (the source's phaseIdx record). -/
structure PhaseIdx where
  foundation : ℕ
  development : ℕ
  application : ℕ
deriving DecidableEq, Repr

/-- Read the counter of a phase. -/
def PhaseIdx.get (s : PhaseIdx) : Phase → ℕ
  | .foundation => s.foundation
  | .development => s.development
  | .application => s.application

/-- Increment the counter of a phase. -/
def PhaseIdx.bump (s : PhaseIdx) : Phase → PhaseIdx
  | .foundation => { s with foundation := s.foundation + 1 }
  | .development => { s with development := s.development + 1 }
  | .application => { s with application := s.application + 1 }

/-- The week numbers 1..weeks, as the source's
Array.from ((length weeks), (_, i) => i + 1). -/
def weekNumbers (weeks : ℕ) : List ℕ := (List.range weeks).map (· + 1)

/-- Build one week of the plan: select the phase bank, trim to the task
count, distribute the hours (the source writes hrs[i] into the i-th selected
template; the two lists have equal length, so this is a zip), and recompute
the week's hours as the rounded task sum. -/
def buildWeek (topic goal : String) (hpw : ℚ) (nTasks appWeekCount w idx : ℕ)
    (phase : Phase) : Week :=
  let templates : List Tpl :=
    match phase with
    | .foundation => foundationBank topic idx
    | .development => developmentBank topic idx
    | .application => applicationBank topic goal idx appWeekCount
  let selected := templates.take nTasks
  let hrs := distributeHours hpw selected.length
  let tasks : List Task := List.zipWith (fun t h => ⟨t.title, h, t.deliverable⟩) selected hrs
  let weekHours := round100 (tasks.foldl (fun s t => s + t.effort_hours) 0)
  ⟨w, focusLine phase idx topic goal, weekHours, tasks, checkpoint phase idx topic goal⟩

/-- The generator's main loop over week numbers, threading the per-phase
occurrence counters (the source's post-increment phaseIdx[phase]++). -/
def genLoop (topic goal : String) (hpw : ℚ) (nTasks appWeekCount weeks : ℕ) :
    List ℕ → PhaseIdx → List Week
  | [], _ => []
  | w :: ws, st =>
    let phase := phaseOf w weeks
    let idx := st.get phase
    buildWeek topic goal hpw nTasks appWeekCount w idx phase ::
      genLoop topic goal hpw nTasks appWeekCount weeks ws (st.bump phase)

/-- generatePlan of planner.ts. -/
def generatePlan (inputs : PlanInputs) : PlanResult :=
  let nTasks := tasksPerWeek inputs.hours_per_week
  let appWeekCount :=
    ((weekNumbers inputs.weeks).filter
      (fun w => decide (phaseOf w inputs.weeks = Phase.application))).length
  let planWeeks :=
    genLoop inputs.topic inputs.goal inputs.hours_per_week nTasks appWeekCount
      inputs.weeks (weekNumbers inputs.weeks) ⟨0, 0, 0⟩
  let result : LearningPlan :=
    ⟨inputs.topic, inputs.level, inputs.goal, inputs.weeks, inputs.hours_per_week, planWeeks⟩
  ⟨result, jsonStringify (planToJson result)⟩

/-- fixPlan of planner.ts: re-generate from the same inputs; the error list
is ignored. -/
def fixPlan (inputs : PlanInputs) (_errors : List String) : PlanResult :=
  generatePlan inputs

/-! Spec-side definitions used to state the claims. -/

/-- The spec's phase rule with the ratio comparisons stated equivalently over
integers: for weeks ≥ 3, ratio = w / weeks satisfies ratio ≤ 1/3 exactly when
3 * w ≤ weeks, and ratio ≤ 2/3 exactly when 3 * w ≤ 2 * weeks. -/
def phaseSpec (w total : ℕ) : Phase :=
  if total = 1 then .application
  else if total = 2 then (if w = 1 then .foundation else .application)
  else if 3 * w ≤ total then .foundation
  else if 3 * w ≤ 2 * total then .development
  else .application

/-- Position of a phase in the order foundation < development <
application. -/
def phaseRank : Phase → ℕ
  | .foundation => 0
  | .development => 1
  | .application => 2

/-- Concrete inputs exposing the rounding overshoot: hours_per_week = 3.006
(a legal positive JS number) makes distributeHours produce 1.5 and 1.51,
whose sum 3.01 exceeds the budget. -/
def inputsThreePointOhOhSix : PlanInputs :=
  ⟨"TypeScript", "beginner", "Build a REST API", 1, 3006/1000, ""⟩

/-- Concrete inputs exposing the zero-effort task: hours_per_week = 0.1
(a legal positive JS number) makes distributeHours produce 0.1 and 0. -/
def inputsTenthHour : PlanInputs :=
  ⟨"TypeScript", "beginner", "Build a REST API", 1, 1/10, ""⟩

/-- Characters a decimal number rendering can contain. -/
def numChar (c : Char) : Bool := c.isDigit || c = '.' || c = '-'

/-- Example inputs (the test suite's base fixture). -/
def exampleInputs : PlanInputs :=
  ⟨"TypeScript", "beginner", "Build a REST API", 4, 10, ""⟩

/-- Hand-made week with an hours mismatch (tasks sum to 3 but hours say 5),
used to witness the validator theorems. -/
def exampleMismatchWeek : Week :=
  ⟨1, "Intro", 5, [⟨"Read the book", 3, "Notes"⟩], "Can explain the basics"⟩

/-- Hand-made plan containing just the mismatching week. -/
def exampleMismatchPlan : LearningPlan :=
  ⟨"TypeScript", "beginner", "Build a REST API", 1, 5, [exampleMismatchWeek]⟩

/-! Lemmas about the decimal digit rendering. -/

theorem charDigit_digitChar : ∀ d, d < 10 → charDigit (digitChar d) = d := by decide

theorem isDigit_digitChar : ∀ d, d < 10 → (digitChar d).isDigit = true := by decide

theorem charsToNat_append (l : List Char) (c : Char) :
    charsToNat (l ++ [c]) = charsToNat l * 10 + charDigit c := by
  simp [charsToNat, List.foldl_append]

theorem charsToNat_revMap (ds : List ℕ) (h : ∀ d ∈ ds, d < 10) :
    charsToNat ((ds.map digitChar).reverse) = Nat.ofDigits 10 ds := by
  induction ds with
  | nil => simp [charsToNat, Nat.ofDigits]
  | cons d ds ih =>
    simp only [List.map_cons, List.reverse_cons]
    rw [charsToNat_append, ih (fun x hx => h x (List.mem_cons_of_mem _ hx)),
      charDigit_digitChar d (h d (List.mem_cons_self _ _)), Nat.ofDigits_cons]
    ring

theorem charsToNat_natChars (n : ℕ) : charsToNat (natChars n) = n := by
  by_cases h : n = 0
  · subst h; decide
  · rw [natChars, if_neg h,
      charsToNat_revMap _ (fun d hd => Nat.digits_lt_base (by norm_num) hd),
      Nat.ofDigits_digits]

theorem natChars_ne_nil (n : ℕ) : natChars n ≠ [] := by
  by_cases h : n = 0
  · subst h; decide
  · rw [natChars, if_neg h]
    simp [Nat.digits_ne_nil_iff_ne_zero.mpr h]

theorem natChars_isDigit (n : ℕ) : ∀ c ∈ natChars n, c.isDigit = true := by
  by_cases h : n = 0
  · subst h; decide
  · rw [natChars, if_neg h]
    intro c hc
    rw [List.mem_reverse, List.mem_map] at hc
    obtain ⟨d, hd, rfl⟩ := hc
    exact isDigit_digitChar d (Nat.digits_lt_base (by norm_num) hd)

theorem takeWhile_dropWhile_append {p : Char → Bool} :
    ∀ (A B : List Char), (∀ c ∈ A, p c = true) →
      (∀ b, B.head? = some b → p b = false) →
      (A ++ B).takeWhile p = A ∧ (A ++ B).dropWhile p = B := by
  intro A
  induction A with
  | nil =>
    intro B _ hB
    cases B with
    | nil => exact ⟨rfl, rfl⟩
    | cons b B' => simp [List.takeWhile_cons, List.dropWhile_cons, hB b rfl]
  | cons a A ih =>
    intro B hA hB
    have hpa : p a = true := hA a (List.mem_cons_self _ _)
    have h2 := ih B (fun c hc => hA c (List.mem_cons_of_mem _ hc)) hB
    simp [List.takeWhile_cons, List.dropWhile_cons, hpa, h2.1, h2.2]

theorem chunk_inj {p : Char → Bool} (A A' B B' : List Char)
    (hA : ∀ c ∈ A, p c = true) (hA' : ∀ c ∈ A', p c = true)
    (hB : ∀ b, B.head? = some b → p b = false)
    (hB' : ∀ b, B'.head? = some b → p b = false)
    (h : A ++ B = A' ++ B') : A = A' ∧ B = B' := by
  have h1 := takeWhile_dropWhile_append A B hA hB
  have h2 := takeWhile_dropWhile_append A' B' hA' hB'
  refine ⟨?_, ?_⟩
  · rw [← h1.1, h, h2.1]
  · rw [← h1.2, h, h2.2]

/-! Lemmas: the decimal rendering of a finite-decimal rational inverts
through the number parser. -/

theorem parseDigits_append (A rest : List Char) (hA : ∀ c ∈ A, c.isDigit = true)
    (hne : A ≠ []) (hrest : ∀ b, rest.head? = some b → b.isDigit = false) :
    parseDigits (A ++ rest) = some (charsToNat A, A.length, rest) := by
  have h := takeWhile_dropWhile_append (p := fun c => c.isDigit) A rest hA hrest
  unfold parseDigits
  rw [h.1, h.2]
  obtain ⟨a, A', rfl⟩ := List.exists_cons_of_ne_nil hne
  simp

theorem charsToNat_replicate_zero (k : ℕ) (l : List Char) :
    charsToNat (List.replicate k '0' ++ l) = charsToNat l := by
  induction k with
  | zero => rfl
  | succ k ih =>
    simp only [List.replicate_succ, List.cons_append, charsToNat, List.foldl_cons]
    rw [show 0 * 10 + charDigit '0' = 0 from by decide]
    exact ih

theorem natChars_length_le (m e : ℕ) (hm : m < 10 ^ e) (he : 0 < e) :
    (natChars m).length ≤ e := by
  by_cases h : m = 0
  · subst h
    simpa [natChars] using he
  · rw [natChars, if_neg h]
    simp only [List.length_reverse, List.length_map]
    by_contra hlt
    push_neg at hlt
    have h1 := Nat.base_pow_length_digits_le 10 m (by norm_num) h
    have h3 : 10 ^ (e + 1) ≤ 10 ^ (Nat.digits 10 m).length :=
      Nat.pow_le_pow_right (by norm_num) (by omega)
    rw [pow_succ] at h3
    omega

theorem trimZeros_spec : ∀ (E M : ℕ), M < 10 ^ E →
    (trimZeros M E).1 < 10 ^ (trimZeros M E).2 ∧
    ((trimZeros M E).1 : ℚ) / 10 ^ (trimZeros M E).2 = (M : ℚ) / 10 ^ E ∧
    (M = 0 → trimZeros M E = (0, 0)) ∧
    (0 < M → 0 < (trimZeros M E).2) := by
  intro E
  induction E with
  | zero =>
    intro M hM
    have hM0 : M = 0 := by simpa using hM
    subst hM0
    exact ⟨by norm_num [trimZeros], by norm_num [trimZeros], fun _ => rfl, by omega⟩
  | succ E ih =>
    intro M hM
    by_cases h : M % 10 = 0
    · rw [show trimZeros M (E + 1) = trimZeros (M / 10) E from by simp [trimZeros, h]]
      have hdvd : (10 : ℕ) ∣ M := Nat.dvd_of_mod_eq_zero h
      have hM10 : M / 10 < 10 ^ E := by
        rw [Nat.div_lt_iff_lt_mul (by norm_num)]
        rw [pow_succ] at hM
        exact hM
      have h3 := ih (M / 10) hM10
      refine ⟨h3.1, ?_, ?_, ?_⟩
      · rw [h3.2.1, Nat.cast_div hdvd (by norm_num), div_div, pow_succ]
        push_cast
        ring_nf
      · intro h0
        subst h0
        exact h3.2.2.1 rfl
      · intro h0
        have : 0 < M / 10 := by omega
        exact h3.2.2.2 this
    · rw [show trimZeros M (E + 1) = (M, E + 1) from by simp [trimZeros, h]]
      exact ⟨hM, rfl, fun h0 => absurd (by simp [h0]) h, fun _ => Nat.succ_pos E⟩

theorem parseNumBody_decBody (N E : ℕ) (rest : List Char)
    (hrest : ∀ b, rest.head? = some b → b.isDigit = false ∧ b ≠ '.') :
    parseNumBody (decBody N E ++ rest) = some ((N : ℚ) / 10 ^ E, rest) := by
  obtain ⟨m, e, hme⟩ : ∃ m e, trimZeros (N % 10 ^ E) E = (m, e) := ⟨_, _, rfl⟩
  have hpow : (0 : ℕ) < 10 ^ E := pow_pos (by norm_num) E
  have hMlt : N % 10 ^ E < 10 ^ E := Nat.mod_lt _ hpow
  have hts := trimZeros_spec E (N % 10 ^ E) hMlt
  rw [hme] at hts
  have hdecB : decBody N E = natChars (N / 10 ^ E) ++
      (if e = 0 then [] else
        '.' :: (List.replicate (e - (natChars m).length) '0' ++ natChars m)) := by
    simp only [decBody, hme]
  have hdivmod : (10 : ℚ) ^ E * ((N / 10 ^ E : ℕ) : ℚ) + ((N % 10 ^ E : ℕ) : ℚ) = (N : ℚ) := by
    exact_mod_cast Nat.div_add_mod N (10 ^ E)
  by_cases he : e = 0
  · subst he
    have hM0 : N % 10 ^ E = 0 := by
      by_contra hne
      exact absurd (hts.2.2.2 (Nat.pos_of_ne_zero hne)) (by simp)
    have hval : ((N / 10 ^ E : ℕ) : ℚ) = (N : ℚ) / 10 ^ E := by
      rw [hM0] at hdivmod
      rw [eq_div_iff (by positivity : ((10 : ℚ)) ^ E ≠ 0)]
      push_cast at hdivmod ⊢
      linarith
    rw [hdecB, if_pos rfl, List.append_nil]
    rw [parseNumBody,
      parseDigits_append _ rest (natChars_isDigit _) (natChars_ne_nil _)
        (fun b hb => (hrest b hb).1)]
    rcases rest with _ | ⟨b, r⟩
    · dsimp only
      rw [charsToNat_natChars, hval]
    · have hbne : b ≠ '.' := (hrest b rfl).2
      dsimp only
      split
      · next heq => simp_all
      · rw [charsToNat_natChars, hval]
  · have hepos : 0 < e := Nat.pos_of_ne_zero he
    have hlen : (natChars m).length ≤ e := natChars_length_le m e hts.1 hepos
    have hpadA : ∀ c ∈ List.replicate (e - (natChars m).length) '0' ++ natChars m,
        c.isDigit = true := by
      intro c hc
      rcases List.mem_append.mp hc with h | h
      · rw [List.eq_of_mem_replicate h]; decide
      · exact natChars_isDigit m c h
    have harr : decBody N E ++ rest =
        natChars (N / 10 ^ E) ++
          ('.' :: ((List.replicate (e - (natChars m).length) '0' ++ natChars m) ++ rest)) := by
      rw [hdecB, if_neg he]
      simp [List.append_assoc]
    rw [harr, parseNumBody,
      parseDigits_append _ _ (natChars_isDigit _) (natChars_ne_nil _)
        (fun b hb => by
          simp only [List.head?_cons, Option.some.injEq] at hb
          rw [← hb]; decide)]
    dsimp only
    split
    · next rest2 heq =>
      rw [List.cons.injEq] at heq
      rw [← heq.2]
      rw [parseDigits_append _ rest hpadA
          (by simp [natChars_ne_nil m])
          (fun b hb => (hrest b hb).1)]
      dsimp only
      rw [charsToNat_replicate_zero, charsToNat_natChars, charsToNat_natChars]
      have hlensum : (List.replicate (e - (natChars m).length) '0' ++ natChars m).length = e := by
        simp only [List.length_append, List.length_replicate]
        omega
      rw [hlensum]
      have hval2 : ((N / 10 ^ E : ℕ) : ℚ) + (m : ℚ) / 10 ^ e = (N : ℚ) / 10 ^ E := by
        rw [hts.2.1]
        field_simp
        linarith [hdivmod]
      rw [hval2]
    · next x h => exact (h _ rfl).elim

theorem rat_mul_den_eq_num (q : ℚ) : q * (q.den : ℚ) = (q.num : ℚ) := by
  calc q * (q.den : ℚ) = ((q.num : ℚ) / (q.den : ℚ)) * (q.den : ℚ) := by
        rw [Rat.num_div_den]
    _ = (q.num : ℚ) := div_mul_cancel₀ _ (Nat.cast_ne_zero.mpr q.den_pos.ne')

theorem decValue (q : ℚ) (hq : decFinite q) (h0 : 0 ≤ q) :
    (((q * 10 ^ q.den).num.toNat : ℕ) : ℚ) = q * 10 ^ q.den := by
  obtain ⟨c, hc⟩ := hq
  have hkey : q * 10 ^ q.den = ((q.num * c : ℤ) : ℚ) := by
    have hc' : ((10 : ℚ)) ^ q.den = (q.den : ℚ) * (c : ℚ) := by
      exact_mod_cast congrArg (fun n : ℕ => (n : ℚ)) hc
    push_cast
    rw [hc', ← mul_assoc, rat_mul_den_eq_num]
  rw [hkey]
  have hnn : 0 ≤ q.num * (c : ℤ) :=
    mul_nonneg (Rat.num_nonneg.mpr h0) (Int.natCast_nonneg c)
  rw [Rat.num_intCast]
  exact_mod_cast Int.toNat_of_nonneg hnn

theorem decBody_value (q : ℚ) (hq : decFinite q) (h0 : 0 ≤ q) (rest : List Char)
    (hrest : ∀ b, rest.head? = some b → b.isDigit = false ∧ b ≠ '.') :
    parseNumBody (decBody ((q * 10 ^ q.den).num.toNat) q.den ++ rest) = some (q, rest) := by
  rw [parseNumBody_decBody _ _ rest hrest]
  have hval : (((q * 10 ^ q.den).num.toNat : ℕ) : ℚ) / 10 ^ q.den = q := by
    rw [decValue q hq h0, mul_div_assoc,
      div_self (by positivity : ((10 : ℚ)) ^ q.den ≠ 0), mul_one]
  rw [hval]

theorem decBody_head_digit (N E : ℕ) :
    ∃ a A', decBody N E = a :: A' ∧ a.isDigit = true := by
  have h : decBody N E = natChars (N / 10 ^ E) ++
      (if (trimZeros (N % 10 ^ E) E).2 = 0 then [] else
        '.' :: (List.replicate ((trimZeros (N % 10 ^ E) E).2 -
          (natChars (trimZeros (N % 10 ^ E) E).1).length) '0' ++
          natChars (trimZeros (N % 10 ^ E) E).1)) := by
    simp only [decBody]
  cases hnc : natChars (N / 10 ^ E) with
  | nil => exact absurd hnc (natChars_ne_nil _)
  | cons a A' =>
    rw [hnc, List.cons_append] at h
    exact ⟨a, _, h, natChars_isDigit _ a (hnc ▸ List.mem_cons_self a A')⟩

theorem parseNum_decChars (q : ℚ) (hq : decFinite q) (rest : List Char)
    (hrest : ∀ b, rest.head? = some b → b.isDigit = false ∧ b ≠ '.') :
    parseNum (decChars q ++ rest) = some (q, rest) := by
  rcases le_or_lt 0 q with h0 | hneg
  · have habs : |q| = q := abs_of_nonneg h0
    rw [decChars, if_neg (not_lt.mpr h0), List.nil_append, habs]
    obtain ⟨a, A', hA, ha⟩ := decBody_head_digit ((q * 10 ^ q.den).num.toNat) q.den
    have hanot : a ≠ '-' := by
      intro hcontra
      rw [hcontra] at ha
      exact absurd ha (by decide)
    have hbody := decBody_value q hq h0 rest hrest
    rw [hA] at hbody ⊢
    rw [List.cons_append]
    dsimp only [parseNum]
    rw [if_neg hanot]
    rw [List.cons_append] at hbody
    exact hbody
  · have habs : |q| = -q := abs_of_neg hneg
    have hdenabs : |q|.den = q.den := by rw [habs, Rat.den_neg_eq_den]
    have habs_fin : decFinite |q| := by
      unfold decFinite
      rw [hdenabs]
      exact hq
    have hbody : parseNumBody (decBody ((|q| * 10 ^ q.den).num.toNat) q.den ++ rest) =
        some (|q|, rest) := by
      rw [← hdenabs]
      exact decBody_value |q| habs_fin (abs_nonneg q) rest hrest
    rw [decChars, if_pos hneg, List.append_assoc, List.singleton_append]
    dsimp only [parseNum]
    rw [if_pos rfl, hbody, Option.map_some']
    rw [habs, neg_neg]

/-! Lemmas: the string-literal escaping inverts through the string parser. -/

theorem hexVal_hexDigitChar : ∀ v, v < 16 → hexVal (hexDigitChar v) = some v := by decide

theorem psb_quote (X : List Char) : parseStrBody ('"' :: X) = some ([], X) := by
  rw [parseStrBody.eq_def]
  dsimp only
  rw [if_pos rfl]

theorem psb_esc_quote (X : List Char) :
    parseStrBody ('\\' :: '"' :: X) = (parseStrBody X).map (fun p => ('"' :: p.1, p.2)) := by
  rw [parseStrBody.eq_def]
  dsimp only
  rw [if_neg (by decide : ¬('\\' : Char) = '"'), if_pos (rfl : ('\\' : Char) = '\\'),
    if_pos (rfl : ('"' : Char) = '"')]

theorem psb_esc_back (X : List Char) :
    parseStrBody ('\\' :: '\\' :: X) = (parseStrBody X).map (fun p => ('\\' :: p.1, p.2)) := by
  rw [parseStrBody.eq_def]
  dsimp only
  rw [if_neg (by decide : ¬('\\' : Char) = '"'), if_pos (rfl : ('\\' : Char) = '\\'),
    if_neg (by decide : ¬('\\' : Char) = '"'), if_pos (rfl : ('\\' : Char) = '\\')]

theorem psb_esc_b (X : List Char) :
    parseStrBody ('\\' :: 'b' :: X) = (parseStrBody X).map (fun p => ('\x08' :: p.1, p.2)) := by
  rw [parseStrBody.eq_def]
  dsimp only
  rw [if_neg (by decide : ¬('\\' : Char) = '"'), if_pos (rfl : ('\\' : Char) = '\\'),
    if_neg (by decide : ¬('b' : Char) = '"'), if_neg (by decide : ¬('b' : Char) = '\\'),
    if_neg (by decide : ¬('b' : Char) = '/'), if_pos (rfl : ('b' : Char) = 'b')]

theorem psb_esc_f (X : List Char) :
    parseStrBody ('\\' :: 'f' :: X) = (parseStrBody X).map (fun p => ('\x0c' :: p.1, p.2)) := by
  rw [parseStrBody.eq_def]
  dsimp only
  rw [if_neg (by decide : ¬('\\' : Char) = '"'), if_pos (rfl : ('\\' : Char) = '\\'),
    if_neg (by decide : ¬('f' : Char) = '"'), if_neg (by decide : ¬('f' : Char) = '\\'),
    if_neg (by decide : ¬('f' : Char) = '/'), if_neg (by decide : ¬('f' : Char) = 'b'),
    if_pos (rfl : ('f' : Char) = 'f')]

theorem psb_esc_n (X : List Char) :
    parseStrBody ('\\' :: 'n' :: X) = (parseStrBody X).map (fun p => ('\n' :: p.1, p.2)) := by
  rw [parseStrBody.eq_def]
  dsimp only
  rw [if_neg (by decide : ¬('\\' : Char) = '"'), if_pos (rfl : ('\\' : Char) = '\\'),
    if_neg (by decide : ¬('n' : Char) = '"'), if_neg (by decide : ¬('n' : Char) = '\\'),
    if_neg (by decide : ¬('n' : Char) = '/'), if_neg (by decide : ¬('n' : Char) = 'b'),
    if_neg (by decide : ¬('n' : Char) = 'f'), if_pos (rfl : ('n' : Char) = 'n')]

theorem psb_esc_r (X : List Char) :
    parseStrBody ('\\' :: 'r' :: X) = (parseStrBody X).map (fun p => ('\r' :: p.1, p.2)) := by
  rw [parseStrBody.eq_def]
  dsimp only
  rw [if_neg (by decide : ¬('\\' : Char) = '"'), if_pos (rfl : ('\\' : Char) = '\\'),
    if_neg (by decide : ¬('r' : Char) = '"'), if_neg (by decide : ¬('r' : Char) = '\\'),
    if_neg (by decide : ¬('r' : Char) = '/'), if_neg (by decide : ¬('r' : Char) = 'b'),
    if_neg (by decide : ¬('r' : Char) = 'f'), if_neg (by decide : ¬('r' : Char) = 'n'),
    if_pos (rfl : ('r' : Char) = 'r')]

theorem psb_esc_t (X : List Char) :
    parseStrBody ('\\' :: 't' :: X) = (parseStrBody X).map (fun p => ('\t' :: p.1, p.2)) := by
  rw [parseStrBody.eq_def]
  dsimp only
  rw [if_neg (by decide : ¬('\\' : Char) = '"'), if_pos (rfl : ('\\' : Char) = '\\'),
    if_neg (by decide : ¬('t' : Char) = '"'), if_neg (by decide : ¬('t' : Char) = '\\'),
    if_neg (by decide : ¬('t' : Char) = '/'), if_neg (by decide : ¬('t' : Char) = 'b'),
    if_neg (by decide : ¬('t' : Char) = 'f'), if_neg (by decide : ¬('t' : Char) = 'n'),
    if_neg (by decide : ¬('t' : Char) = 'r'), if_pos (rfl : ('t' : Char) = 't')]

theorem psb_raw (c : Char) (X : List Char) (h1 : ¬c = '"') (h2 : ¬c = '\\')
    (h3 : ¬c.toNat < 32) :
    parseStrBody (c :: X) = (parseStrBody X).map (fun p => (c :: p.1, p.2)) := by
  rw [parseStrBody.eq_def]
  dsimp only
  rw [if_neg h1, if_neg h2, if_neg h3]

theorem psb_u (hi lo : ℕ) (hhi : hi < 16) (hlo : lo < 16) (X : List Char) :
    parseStrBody ('\\' :: 'u' :: '0' :: '0' :: hexDigitChar hi :: hexDigitChar lo :: X) =
      (if hi * 16 + lo < 55296 then
        (parseStrBody X).map (fun p => (Char.ofNat (hi * 16 + lo) :: p.1, p.2))
      else none) := by
  rw [parseStrBody.eq_def]
  dsimp only
  rw [if_neg (by decide : ¬('\\' : Char) = '"'), if_pos (rfl : ('\\' : Char) = '\\'),
    if_neg (by decide : ¬('u' : Char) = '"'), if_neg (by decide : ¬('u' : Char) = '\\'),
    if_neg (by decide : ¬('u' : Char) = '/'), if_neg (by decide : ¬('u' : Char) = 'b'),
    if_neg (by decide : ¬('u' : Char) = 'f'), if_neg (by decide : ¬('u' : Char) = 'n'),
    if_neg (by decide : ¬('u' : Char) = 'r'), if_neg (by decide : ¬('u' : Char) = 't'),
    if_pos (rfl : ('u' : Char) = 'u')]
  rw [show hexVal '0' = some 0 from rfl, hexVal_hexDigitChar hi hhi, hexVal_hexDigitChar lo hlo]
  dsimp only
  rw [show ((0 * 16 + 0) * 16 + hi) * 16 + lo = hi * 16 + lo from by ring]

theorem parseStrBody_escape (s : List Char) (rest : List Char) :
    parseStrBody ((s.map escapeChar).flatten ++ '"' :: rest) = some (s, rest) := by
  induction s with
  | nil =>
    rw [show ((([] : List Char).map escapeChar).flatten ++ '"' :: rest) = '"' :: rest from rfl]
    exact psb_quote rest
  | cons c s ih =>
    simp only [List.map_cons, List.flatten_cons, List.append_assoc]
    by_cases h1 : c = '"'
    · subst h1
      rw [show escapeChar '"' = ['\\', '"'] from rfl, List.cons_append, List.cons_append,
        List.nil_append, psb_esc_quote, ih, Option.map_some']
    · by_cases h2 : c = '\\'
      · subst h2
        rw [show escapeChar '\\' = ['\\', '\\'] from rfl, List.cons_append, List.cons_append,
          List.nil_append, psb_esc_back, ih, Option.map_some']
      · by_cases h3 : c = '\x08'
        · subst h3
          rw [show escapeChar '\x08' = ['\\', 'b'] from rfl, List.cons_append, List.cons_append,
            List.nil_append, psb_esc_b, ih, Option.map_some']
        · by_cases h4 : c = '\x0c'
          · subst h4
            rw [show escapeChar '\x0c' = ['\\', 'f'] from rfl, List.cons_append,
              List.cons_append, List.nil_append, psb_esc_f, ih, Option.map_some']
          · by_cases h5 : c = '\n'
            · subst h5
              rw [show escapeChar '\n' = ['\\', 'n'] from rfl, List.cons_append,
                List.cons_append, List.nil_append, psb_esc_n, ih, Option.map_some']
            · by_cases h6 : c = '\r'
              · subst h6
                rw [show escapeChar '\r' = ['\\', 'r'] from rfl, List.cons_append,
                  List.cons_append, List.nil_append, psb_esc_r, ih, Option.map_some']
              · by_cases h7 : c = '\t'
                · subst h7
                  rw [show escapeChar '\t' = ['\\', 't'] from rfl, List.cons_append,
                    List.cons_append, List.nil_append, psb_esc_t, ih, Option.map_some']
                · by_cases h8 : c.toNat < 32
                  · rw [escapeChar, if_neg h1, if_neg h2, if_neg h3, if_neg h4, if_neg h5,
                      if_neg h6, if_neg h7, if_pos h8]
                    rw [List.cons_append, List.cons_append, List.cons_append, List.cons_append,
                      List.cons_append, List.cons_append, List.nil_append]
                    rw [psb_u (c.toNat / 16) (c.toNat % 16) (by omega) (by omega)]
                    rw [show c.toNat / 16 * 16 + c.toNat % 16 = c.toNat from by omega]
                    rw [if_pos (by omega : c.toNat < 55296)]
                    rw [ih, Option.map_some', Char.ofNat_toNat]
                  · rw [escapeChar, if_neg h1, if_neg h2, if_neg h3, if_neg h4, if_neg h5,
                      if_neg h6, if_neg h7, if_neg h8]
                    rw [List.cons_append, List.nil_append]
                    rw [psb_raw c _ h1 h2 h8, ih, Option.map_some']

/-! Lemmas: whitespace skipping and the parser dispatch. -/

theorem skipWs_cons_not {c : Char} (l : List Char) (h : isWs c = false) :
    skipWs (c :: l) = c :: l := by
  simp [skipWs, List.dropWhile_cons, h]

theorem skipWs_ws_before (pre : List Char) (h : ∀ c ∈ pre, isWs c = true) (l : List Char) :
    skipWs (pre ++ l) = skipWs l := by
  induction pre with
  | nil => rfl
  | cons c p ih =>
    rw [List.cons_append]
    have hc : isWs c = true := h c (List.mem_cons_self _ _)
    simp only [skipWs, List.dropWhile_cons, hc]
    exact ih (fun x hx => h x (List.mem_cons_of_mem _ hx))

theorem indentC_ws (d : ℕ) : ∀ c ∈ indentC d, isWs c = true := by
  intro c hc
  rw [List.eq_of_mem_replicate hc]
  decide

theorem nl_indent_ws (d : ℕ) : ∀ c ∈ '\n' :: indentC d, isWs c = true := by
  intro c hc
  rcases List.mem_cons.mp hc with h | h
  · rw [h]; decide
  · exact indentC_ws d c h

theorem digit_not_special (c : Char) (h : c.isDigit = true) :
    isWs c = false ∧ c ≠ ']' ∧ c ≠ '}' ∧ c ≠ ',' ∧ c ≠ '"' ∧ c ≠ '[' ∧ c ≠ '{' := by
  have hne : ∀ x : Char, x.isDigit = false → c ≠ x := by
    intro x hx heq
    rw [heq, hx] at h
    exact Bool.false_ne_true h
  refine ⟨?_, hne ']' (by decide), hne '}' (by decide), hne ',' (by decide),
    hne '"' (by decide), hne '[' (by decide), hne '{' (by decide)⟩
  have h1 := hne ' ' (by decide)
  have h2 := hne '\n' (by decide)
  have h3 := hne '\t' (by decide)
  have h4 := hne '\r' (by decide)
  simp [isWs, h1, h2, h3, h4]

theorem printVal_head (d : ℕ) (j : Json) :
    ∃ c t, printVal d j = c :: t ∧ isWs c = false ∧ c ≠ ']' ∧ c ≠ '}' ∧ c ≠ ',' := by
  cases j with
  | str s =>
    refine ⟨'"', (s.data.map escapeChar).flatten ++ ['"'], ?_,
      by decide, by decide, by decide, by decide⟩
    simp only [printVal, strLitChars, List.cons_append]
  | num q =>
    rcases lt_or_le q 0 with hneg | hpos
    · refine ⟨'-', decBody ((|q| * 10 ^ q.den).num.toNat) q.den, ?_,
        by decide, by decide, by decide, by decide⟩
      simp only [printVal, decChars, if_pos hneg, List.singleton_append]
    · obtain ⟨a, A', hA, ha⟩ := decBody_head_digit ((|q| * 10 ^ q.den).num.toNat) q.den
      have hprops := digit_not_special a ha
      refine ⟨a, A', ?_, hprops.1, hprops.2.1, hprops.2.2.1, hprops.2.2.2.1⟩
      simp only [printVal, decChars, if_neg (not_lt.mpr hpos), List.nil_append]
      exact hA
  | arr l =>
    cases l with
    | nil =>
      refine ⟨'[', [']'], ?_, by decide, by decide, by decide, by decide⟩
      simp only [printVal]
    | cons x xs =>
      refine ⟨'[', '\n' :: (printItems (d + 1) x xs ++ '\n' :: (indentC d ++ [']'])), ?_,
        by decide, by decide, by decide, by decide⟩
      simp only [printVal]
  | obj l =>
    cases l with
    | nil =>
      refine ⟨'{', ['}'], ?_, by decide, by decide, by decide, by decide⟩
      simp only [printVal]
    | cons f fs =>
      refine ⟨'{', '\n' :: (printFields (d + 1) f fs ++ '\n' :: (indentC d ++ ['}'])), ?_,
        by decide, by decide, by decide, by decide⟩
      simp only [printVal]

theorem parseVal_str (fuel : ℕ) (cs X : List Char) (h : skipWs cs = '"' :: X) :
    parseVal (fuel + 1) cs = (parseStrBody X).map (fun p => (Json.str ⟨p.1⟩, p.2)) := by
  rw [parseVal.eq_def]
  dsimp only
  rw [h]
  split
  · next rest heq =>
    rw [List.cons.injEq] at heq
    rw [← heq.2]
  · next rest heq => exact absurd (List.head_eq_of_cons_eq heq) (by decide)
  · next rest heq => exact absurd (List.head_eq_of_cons_eq heq) (by decide)
  · next x h1 h2 h3 => exact (h1 X rfl).elim

theorem parseVal_arr_nil (fuel : ℕ) (cs X Y : List Char) (h : skipWs cs = '[' :: X)
    (h2 : skipWs X = ']' :: Y) : parseVal (fuel + 1) cs = some (Json.arr [], Y) := by
  rw [parseVal.eq_def]
  dsimp only
  rw [h]
  split
  · next rest heq => exact absurd (List.head_eq_of_cons_eq heq) (by decide)
  · next rest heq =>
    rw [List.cons.injEq] at heq
    rw [← heq.2, h2]
    split
    · next r heq2 =>
      rw [List.cons.injEq] at heq2
      rw [← heq2.2]
    · next x hno => exact (hno Y rfl).elim
  · next rest heq => exact absurd (List.head_eq_of_cons_eq heq) (by decide)
  · next x h1 h2 h3 => exact (h2 X rfl).elim

theorem parseVal_arr_cons (fuel : ℕ) (cs X Y : List Char) (c : Char) (h : skipWs cs = '[' :: X)
    (hsk : skipWs X = c :: Y) (hc : c ≠ ']') :
    parseVal (fuel + 1) cs = (parseElems fuel X).map (fun p => (Json.arr p.1, p.2)) := by
  rw [parseVal.eq_def]
  dsimp only
  rw [h]
  split
  · next rest heq => exact absurd (List.head_eq_of_cons_eq heq) (by decide)
  · next rest heq =>
    rw [List.cons.injEq] at heq
    rw [← heq.2, hsk]
    split
    · next r heq2 => exact absurd (List.head_eq_of_cons_eq heq2) hc
    · next x hno => rfl
  · next rest heq => exact absurd (List.head_eq_of_cons_eq heq) (by decide)
  · next x h1 h2 h3 => exact (h2 X rfl).elim

theorem parseVal_obj_nil (fuel : ℕ) (cs X Y : List Char) (h : skipWs cs = '{' :: X)
    (h2 : skipWs X = '}' :: Y) : parseVal (fuel + 1) cs = some (Json.obj [], Y) := by
  rw [parseVal.eq_def]
  dsimp only
  rw [h]
  split
  · next rest heq => exact absurd (List.head_eq_of_cons_eq heq) (by decide)
  · next rest heq => exact absurd (List.head_eq_of_cons_eq heq) (by decide)
  · next rest heq =>
    rw [List.cons.injEq] at heq
    rw [← heq.2, h2]
    split
    · next r heq2 =>
      rw [List.cons.injEq] at heq2
      rw [← heq2.2]
    · next x hno => exact (hno Y rfl).elim
  · next x h1 h2 h3 => exact (h3 X rfl).elim

theorem parseVal_obj_cons (fuel : ℕ) (cs X Y : List Char) (c : Char) (h : skipWs cs = '{' :: X)
    (hsk : skipWs X = c :: Y) (hc : c ≠ '}') :
    parseVal (fuel + 1) cs = (parseFields fuel X).map (fun p => (Json.obj p.1, p.2)) := by
  rw [parseVal.eq_def]
  dsimp only
  rw [h]
  split
  · next rest heq => exact absurd (List.head_eq_of_cons_eq heq) (by decide)
  · next rest heq => exact absurd (List.head_eq_of_cons_eq heq) (by decide)
  · next rest heq =>
    rw [List.cons.injEq] at heq
    rw [← heq.2, hsk]
    split
    · next r heq2 => exact absurd (List.head_eq_of_cons_eq heq2) hc
    · next x hno => rfl
  · next x h1 h2 h3 => exact (h3 X rfl).elim

theorem parseVal_num (fuel : ℕ) (cs X : List Char) (c : Char) (h : skipWs cs = c :: X)
    (h1 : c ≠ '"') (h2 : c ≠ '[') (h3 : c ≠ '{') :
    parseVal (fuel + 1) cs = (parseNum (c :: X)).map (fun p => (Json.num p.1, p.2)) := by
  rw [parseVal.eq_def]
  dsimp only
  rw [h]
  split
  · next rest heq => exact absurd (List.head_eq_of_cons_eq heq) h1
  · next rest heq => exact absurd (List.head_eq_of_cons_eq heq) h2
  · next rest heq => exact absurd (List.head_eq_of_cons_eq heq) h3
  · next x h1' h2' h3' => rfl

theorem bind_some_reduce {α β : Type} (a : α) (f : α → Option β) :
    (do let x ← some a; f x) = f a := rfl

theorem parseVal_ws_before (fuel : ℕ) (pre cs : List Char) (h : ∀ c ∈ pre, isWs c = true) :
    parseVal fuel (pre ++ cs) = parseVal fuel cs := by
  cases fuel with
  | zero => rfl
  | succ f =>
    simp only [parseVal.eq_def]
    rw [skipWs_ws_before pre h cs]

theorem parseElems_ws_before (fuel : ℕ) (pre cs : List Char)
    (h : ∀ c ∈ pre, isWs c = true) :
    parseElems fuel (pre ++ cs) = parseElems fuel cs := by
  cases fuel with
  | zero => rfl
  | succ f =>
    conv_lhs => rw [parseElems.eq_def]
    conv_rhs => rw [parseElems.eq_def]
    dsimp only
    rw [parseVal_ws_before f pre cs h]

theorem parseFields_ws_before (fuel : ℕ) (pre cs : List Char)
    (h : ∀ c ∈ pre, isWs c = true) :
    parseFields fuel (pre ++ cs) = parseFields fuel cs := by
  cases fuel with
  | zero => rfl
  | succ f =>
    conv_lhs => rw [parseFields.eq_def]
    conv_rhs => rw [parseFields.eq_def]
    dsimp only
    rw [skipWs_ws_before pre h cs]

theorem parseElems_step (fuel : ℕ) (cs cs1 cs2 : List Char) (v : Json)
    (hpv : parseVal fuel cs = some (v, cs1)) (hsk : skipWs cs1 = ',' :: cs2) :
    parseElems (fuel + 1) cs = (parseElems fuel cs2).map (fun p => (v :: p.1, p.2)) := by
  rw [parseElems.eq_def]
  dsimp only
  rw [hpv]
  simp only [bind_some_reduce]
  rw [hsk]
  split
  · next c2 heq =>
    rw [List.cons.injEq] at heq
    rw [← heq.2]
  · next c2 heq => exact absurd (List.head_eq_of_cons_eq heq) (by decide)
  · next x h1 h2 => exact (h1 cs2 rfl).elim

theorem parseElems_last (fuel : ℕ) (cs cs1 cs2 : List Char) (v : Json)
    (hpv : parseVal fuel cs = some (v, cs1)) (hsk : skipWs cs1 = ']' :: cs2) :
    parseElems (fuel + 1) cs = some ([v], cs2) := by
  rw [parseElems.eq_def]
  dsimp only
  rw [hpv]
  simp only [bind_some_reduce]
  rw [hsk]
  split
  · next c2 heq => exact absurd (List.head_eq_of_cons_eq heq) (by decide)
  · next c2 heq =>
    rw [List.cons.injEq] at heq
    rw [← heq.2]
  · next x h1 h2 => exact (h2 cs2 rfl).elim

theorem parseFields_step (fuel : ℕ) (cs X cs1 cs2 cs3 cs4 : List Char) (k : List Char)
    (v : Json) (hsk0 : skipWs cs = '"' :: X) (hps : parseStrBody X = some (k, cs1))
    (hsk1 : skipWs cs1 = ':' :: cs2) (hpv : parseVal fuel cs2 = some (v, cs3))
    (hsk2 : skipWs cs3 = ',' :: cs4) :
    parseFields (fuel + 1) cs = (parseFields fuel cs4).map (fun p => ((⟨k⟩, v) :: p.1, p.2)) := by
  rw [parseFields.eq_def]
  dsimp only
  rw [hsk0]
  split
  · next rest heq =>
    rw [List.cons.injEq] at heq
    rw [← heq.2, hps]
    simp only [bind_some_reduce]
    rw [hsk1]
    split
    · next c2 heq1 =>
      rw [List.cons.injEq] at heq1
      rw [← heq1.2, hpv]
      simp only [bind_some_reduce]
      rw [hsk2]
      split
      · next c4 heq2 =>
        rw [List.cons.injEq] at heq2
        rw [← heq2.2]
      · next c4 heq2 => exact absurd (List.head_eq_of_cons_eq heq2) (by decide)
      · next x h1 h2 => exact (h1 cs4 rfl).elim
    · next x hno => exact (hno cs2 rfl).elim
  · next x hno => exact (hno X rfl).elim

theorem parseFields_last (fuel : ℕ) (cs X cs1 cs2 cs3 cs4 : List Char) (k : List Char)
    (v : Json) (hsk0 : skipWs cs = '"' :: X) (hps : parseStrBody X = some (k, cs1))
    (hsk1 : skipWs cs1 = ':' :: cs2) (hpv : parseVal fuel cs2 = some (v, cs3))
    (hsk2 : skipWs cs3 = '}' :: cs4) :
    parseFields (fuel + 1) cs = some ([(⟨k⟩, v)], cs4) := by
  rw [parseFields.eq_def]
  dsimp only
  rw [hsk0]
  split
  · next rest heq =>
    rw [List.cons.injEq] at heq
    rw [← heq.2, hps]
    simp only [bind_some_reduce]
    rw [hsk1]
    split
    · next c2 heq1 =>
      rw [List.cons.injEq] at heq1
      rw [← heq1.2, hpv]
      simp only [bind_some_reduce]
      rw [hsk2]
      split
      · next c4 heq2 => exact absurd (List.head_eq_of_cons_eq heq2) (by decide)
      · next c4 heq2 =>
        rw [List.cons.injEq] at heq2
        rw [← heq2.2]
        rfl
      · next x h1 h2 => exact (h2 cs4 rfl).elim
    · next x hno => exact (hno cs2 rfl).elim
  · next x hno => exact (hno X rfl).elim

/-! The round-trip of the printer through the parser. -/

theorem jsize_pos (j : Json) : 1 ≤ jsize j := by
  cases j <;> simp only [jsize] <;> omega

theorem lsize_pos (l : List Json) : 1 ≤ lsize l := by
  cases l <;> simp only [lsize] <;> omega

theorem fsize_pos (l : List (String × Json)) : 1 ≤ fsize l := by
  cases l <;> simp only [fsize] <;> omega

theorem printItems_eq (d : ℕ) (x : Json) (xs : List Json) :
    ∃ R, printItems d x xs = indentC d ++ (printVal d x ++ R) := by
  cases xs with
  | nil =>
    refine ⟨[], ?_⟩
    simp only [printItems, List.append_nil]
  | cons y ys =>
    refine ⟨',' :: '\n' :: printItems d y ys, ?_⟩
    simp only [printItems, List.append_assoc, List.cons_append]

theorem decChars_head (q : ℚ) :
    ∃ c t, decChars q = c :: t ∧ isWs c = false ∧ c ≠ '"' ∧ c ≠ '[' ∧ c ≠ '{' := by
  rcases lt_or_le q 0 with hneg | hpos
  · refine ⟨'-', decBody ((|q| * 10 ^ q.den).num.toNat) q.den, ?_,
      by decide, by decide, by decide, by decide⟩
    rw [decChars, if_pos hneg, List.singleton_append]
  · obtain ⟨a, A', hA, ha⟩ := decBody_head_digit ((|q| * 10 ^ q.den).num.toNat) q.den
    have hprops := digit_not_special a ha
    refine ⟨a, A', ?_, hprops.1, hprops.2.2.2.2.1, hprops.2.2.2.2.2.1, hprops.2.2.2.2.2.2⟩
    rw [decChars, if_neg (not_lt.mpr hpos), List.nil_append]
    exact hA

theorem parse_print_aux : ∀ n : ℕ,
    (∀ j : Json, jsize j ≤ n → ∀ fuel d rest, jsize j ≤ fuel → saneVal j = true →
      (∀ b, rest.head? = some b → b.isDigit = false ∧ b ≠ '.') →
      parseVal fuel (printVal d j ++ rest) = some (j, rest)) ∧
    (∀ (x : Json) (xs : List Json), lsize (x :: xs) ≤ n → ∀ fuel d rest,
      lsize (x :: xs) ≤ fuel → saneList (x :: xs) = true →
      parseElems fuel (printItems (d + 1) x xs ++ '\n' :: (indentC d ++ ']' :: rest)) =
        some (x :: xs, rest)) ∧
    (∀ (f : String × Json) (fs : List (String × Json)), fsize (f :: fs) ≤ n → ∀ fuel d rest,
      fsize (f :: fs) ≤ fuel → saneFields (f :: fs) = true →
      parseFields fuel (printFields (d + 1) f fs ++ '\n' :: (indentC d ++ '}' :: rest)) =
        some (f :: fs, rest)) := by
  intro n
  induction n using Nat.strong_induction_on with
  | _ n IH =>
  refine ⟨?_, ?_, ?_⟩
  · -- values
    intro j hj fuel d rest hfuel hsane hrest
    cases j with
    | str s =>
      obtain ⟨f, rfl⟩ : ∃ f, fuel = f + 1 := ⟨fuel - 1, by
        have := jsize_pos (Json.str s)
        omega⟩
      have hprint : printVal d (Json.str s) ++ rest =
          '"' :: ((s.data.map escapeChar).flatten ++ '"' :: rest) := by
        simp only [printVal, strLitChars, List.cons_append, List.append_assoc,
          List.singleton_append, List.nil_append]
      rw [hprint, parseVal_str f _ _ (skipWs_cons_not _ (by decide)),
        parseStrBody_escape, Option.map_some']
    | num q =>
      obtain ⟨f, rfl⟩ : ∃ f, fuel = f + 1 := ⟨fuel - 1, by
        have := jsize_pos (Json.num q)
        omega⟩
      have hq : decFinite q := by
        simp only [saneVal] at hsane
        exact of_decide_eq_true hsane
      obtain ⟨c, t, hct, hws, hq1, hq2, hq3⟩ := decChars_head q
      have hprint : printVal d (Json.num q) ++ rest = c :: (t ++ rest) := by
        simp only [printVal]
        rw [hct, List.cons_append]
      rw [hprint, parseVal_num f _ _ c (skipWs_cons_not _ hws) hq1 hq2 hq3]
      rw [show c :: (t ++ rest) = decChars q ++ rest from by rw [hct, List.cons_append]]
      rw [parseNum_decChars q hq rest hrest, Option.map_some']
    | arr l =>
      cases l with
      | nil =>
        obtain ⟨f, rfl⟩ : ∃ f, fuel = f + 1 := ⟨fuel - 1, by
          have := jsize_pos (Json.arr [])
          omega⟩
        have hprint : printVal d (Json.arr []) ++ rest = '[' :: (']' :: rest) := by
          simp only [printVal, List.cons_append, List.nil_append]
        rw [hprint]
        exact parseVal_arr_nil f _ (']' :: rest) rest
          (skipWs_cons_not _ (by decide)) (skipWs_cons_not _ (by decide))
      | cons x xs =>
        obtain ⟨f, rfl⟩ : ∃ f, fuel = f + 1 := ⟨fuel - 1, by
          have := jsize_pos (Json.arr (x :: xs))
          omega⟩
        have hjs : jsize (Json.arr (x :: xs)) = 1 + lsize (x :: xs) := by
          simp only [jsize]
        have hsane' : saneList (x :: xs) = true := by
          simp only [saneVal] at hsane
          exact hsane
        have hprint : printVal d (Json.arr (x :: xs)) ++ rest =
            '[' :: ('\n' :: (printItems (d + 1) x xs ++ '\n' :: (indentC d ++ ']' :: rest))) := by
          simp only [printVal, List.cons_append, List.append_assoc, List.singleton_append,
            List.nil_append]
        obtain ⟨R, hR⟩ := printItems_eq (d + 1) x xs
        obtain ⟨hc, ht, hhead, hws1, hne1, hne2, hne3⟩ := printVal_head (d + 1) x
        have hskX : skipWs ('\n' :: (printItems (d + 1) x xs ++
            '\n' :: (indentC d ++ ']' :: rest))) =
            hc :: (ht ++ (R ++ '\n' :: (indentC d ++ ']' :: rest))) := by
          rw [hR]
          rw [show ('\n' :: ((indentC (d + 1) ++ (printVal (d + 1) x ++ R)) ++
              '\n' :: (indentC d ++ ']' :: rest))) =
              ('\n' :: indentC (d + 1)) ++ (printVal (d + 1) x ++
                (R ++ '\n' :: (indentC d ++ ']' :: rest))) from by
            simp [List.append_assoc]]
          rw [skipWs_ws_before _ (nl_indent_ws (d + 1)) _, hhead, List.cons_append]
          exact skipWs_cons_not _ hws1
        rw [hprint, parseVal_arr_cons f _ _ _ hc (skipWs_cons_not _ (by decide)) hskX hne1]
        rw [show ('\n' :: (printItems (d + 1) x xs ++ '\n' :: (indentC d ++ ']' :: rest))) =
            ['\n'] ++ (printItems (d + 1) x xs ++ '\n' :: (indentC d ++ ']' :: rest)) from rfl]
        rw [parseElems_ws_before f _ _ (by intro c hcm; rw [List.mem_singleton.mp hcm]; decide)]
        have hQ := (IH (lsize (x :: xs)) (by omega)).2.1 x xs le_rfl f d rest (by omega) hsane'
        rw [hQ, Option.map_some']
    | obj l =>
      cases l with
      | nil =>
        obtain ⟨f, rfl⟩ : ∃ f, fuel = f + 1 := ⟨fuel - 1, by
          have := jsize_pos (Json.obj [])
          omega⟩
        have hprint : printVal d (Json.obj []) ++ rest = '{' :: ('}' :: rest) := by
          simp only [printVal, List.cons_append, List.nil_append]
        rw [hprint]
        exact parseVal_obj_nil f _ ('}' :: rest) rest
          (skipWs_cons_not _ (by decide)) (skipWs_cons_not _ (by decide))
      | cons g fs =>
        obtain ⟨f, rfl⟩ : ∃ f, fuel = f + 1 := ⟨fuel - 1, by
          have := jsize_pos (Json.obj (g :: fs))
          omega⟩
        have hjs : jsize (Json.obj (g :: fs)) = 1 + fsize (g :: fs) := by
          simp only [jsize]
        have hsane' : saneFields (g :: fs) = true := by
          simp only [saneVal] at hsane
          exact hsane
        have hprint : printVal d (Json.obj (g :: fs)) ++ rest =
            '{' :: ('\n' :: (printFields (d + 1) g fs ++ '\n' :: (indentC d ++ '}' :: rest))) := by
          simp only [printVal, List.cons_append, List.append_assoc, List.singleton_append,
            List.nil_append]
        have hpf : ∃ R, printFields (d + 1) g fs =
            indentC (d + 1) ++ ('"' :: ((g.1.data.map escapeChar).flatten ++ '"' :: R)) := by
          cases fs with
          | nil =>
            refine ⟨':' :: ' ' :: printVal (d + 1) g.2, ?_⟩
            simp only [printFields, strLitChars, List.append_assoc, List.cons_append,
              List.singleton_append, List.nil_append]
          | cons g2 gs =>
            refine ⟨':' :: ' ' :: (printVal (d + 1) g.2 ++
              ',' :: '\n' :: printFields (d + 1) g2 gs), ?_⟩
            simp only [printFields, strLitChars, List.append_assoc, List.cons_append,
              List.singleton_append, List.nil_append]
        obtain ⟨R, hR⟩ := hpf
        have hskX : skipWs ('\n' :: (printFields (d + 1) g fs ++
            '\n' :: (indentC d ++ '}' :: rest))) =
            '"' :: (((g.1.data.map escapeChar).flatten ++ '"' :: R) ++
              '\n' :: (indentC d ++ '}' :: rest)) := by
          rw [hR]
          rw [show ('\n' :: ((indentC (d + 1) ++
              ('"' :: ((g.1.data.map escapeChar).flatten ++ '"' :: R))) ++
              '\n' :: (indentC d ++ '}' :: rest))) =
              ('\n' :: indentC (d + 1)) ++
                ('"' :: (((g.1.data.map escapeChar).flatten ++ '"' :: R) ++
                  '\n' :: (indentC d ++ '}' :: rest))) from by
            simp [List.append_assoc]]
          rw [skipWs_ws_before _ (nl_indent_ws (d + 1)) _]
          exact skipWs_cons_not _ (by decide)
        rw [hprint, parseVal_obj_cons f _ _ _ '"' (skipWs_cons_not _ (by decide)) hskX
          (by decide)]
        rw [show ('\n' :: (printFields (d + 1) g fs ++ '\n' :: (indentC d ++ '}' :: rest))) =
            ['\n'] ++ (printFields (d + 1) g fs ++ '\n' :: (indentC d ++ '}' :: rest)) from rfl]
        rw [parseFields_ws_before f _ _ (by intro c hcm; rw [List.mem_singleton.mp hcm]; decide)]
        have hQ := (IH (fsize (g :: fs)) (by omega)).2.2 g fs le_rfl f d rest (by omega) hsane'
        rw [hQ, Option.map_some']
  · -- array elements
    intro x xs hm fuel d rest hfuel hsane
    have hls : lsize (x :: xs) = 1 + jsize x + lsize xs := by simp only [lsize]
    have hxp := jsize_pos x
    have hlp := lsize_pos xs
    obtain ⟨f, rfl⟩ : ∃ f, fuel = f + 1 := ⟨fuel - 1, by omega⟩
    simp only [saneList, Bool.and_eq_true] at hsane
    have hPx := (IH (jsize x) (by omega)).1 x le_rfl
    cases xs with
    | nil =>
      have hpi : printItems (d + 1) x [] = indentC (d + 1) ++ printVal (d + 1) x := by
        simp only [printItems]
      rw [hpi, List.append_assoc]
      have hpv : parseVal f (indentC (d + 1) ++ (printVal (d + 1) x ++
          '\n' :: (indentC d ++ ']' :: rest))) =
          some (x, '\n' :: (indentC d ++ ']' :: rest)) := by
        rw [parseVal_ws_before f _ _ (indentC_ws (d + 1))]
        exact hPx f (d + 1) _ (by omega) hsane.1 (by intro b hb; cases hb; exact ⟨rfl, by decide⟩)
      refine parseElems_last f _ _ rest x hpv ?_
      rw [show ('\n' :: (indentC d ++ ']' :: rest)) =
          ('\n' :: indentC d) ++ (']' :: rest) from by simp [List.cons_append]]
      rw [skipWs_ws_before _ (nl_indent_ws d) _]
      exact skipWs_cons_not _ (by decide)
    | cons y ys =>
      have hpi : printItems (d + 1) x (y :: ys) = indentC (d + 1) ++
          (printVal (d + 1) x ++ (',' :: '\n' :: printItems (d + 1) y ys)) := by
        simp only [printItems, List.append_assoc, List.cons_append]
      rw [hpi, List.append_assoc]
      have hpv : parseVal f (indentC (d + 1) ++ ((printVal (d + 1) x ++
          (',' :: '\n' :: printItems (d + 1) y ys)) ++
          '\n' :: (indentC d ++ ']' :: rest))) =
          some (x, ',' :: ('\n' :: (printItems (d + 1) y ys ++
            '\n' :: (indentC d ++ ']' :: rest)))) := by
        rw [parseVal_ws_before f _ _ (indentC_ws (d + 1))]
        rw [show ((printVal (d + 1) x ++ (',' :: '\n' :: printItems (d + 1) y ys)) ++
            '\n' :: (indentC d ++ ']' :: rest)) =
            printVal (d + 1) x ++ (',' :: ('\n' :: (printItems (d + 1) y ys ++
              '\n' :: (indentC d ++ ']' :: rest)))) from by
          simp [List.append_assoc]]
        exact hPx f (d + 1) _ (by omega) hsane.1 (by intro b hb; cases hb; exact ⟨rfl, by decide⟩)
      rw [parseElems_step f _ _ _ x hpv (skipWs_cons_not _ (by decide))]
      rw [show ('\n' :: (printItems (d + 1) y ys ++ '\n' :: (indentC d ++ ']' :: rest))) =
          ['\n'] ++ (printItems (d + 1) y ys ++ '\n' :: (indentC d ++ ']' :: rest)) from rfl]
      rw [parseElems_ws_before f _ _ (by intro c hcm; rw [List.mem_singleton.mp hcm]; decide)]
      have hQ := (IH (lsize (y :: ys)) (by omega)).2.1 y ys le_rfl f d rest (by
        simp only [lsize] at hm hfuel ⊢
        omega) hsane.2
      rw [hQ, Option.map_some']
  · -- object fields
    intro g fs hm fuel d rest hfuel hsane
    have hfs : fsize (g :: fs) = 1 + jsize g.2 + fsize fs := by simp only [fsize]
    have hxp := jsize_pos g.2
    have hlp := fsize_pos fs
    obtain ⟨f, rfl⟩ : ∃ f, fuel = f + 1 := ⟨fuel - 1, by omega⟩
    simp only [saneFields, Bool.and_eq_true] at hsane
    have hPx := (IH (jsize g.2) (by omega)).1 g.2 le_rfl
    cases fs with
    | nil =>
      have hpf : printFields (d + 1) g [] ++ '\n' :: (indentC d ++ '}' :: rest) =
          indentC (d + 1) ++ ('"' :: ((g.1.data.map escapeChar).flatten ++
            '"' :: (':' :: (' ' :: (printVal (d + 1) g.2 ++
              '\n' :: (indentC d ++ '}' :: rest)))))) := by
        simp only [printFields, strLitChars, List.append_assoc, List.cons_append,
          List.singleton_append, List.nil_append]
      rw [hpf]
      have hpv : parseVal f (' ' :: (printVal (d + 1) g.2 ++
          '\n' :: (indentC d ++ '}' :: rest))) =
          some (g.2, '\n' :: (indentC d ++ '}' :: rest)) := by
        rw [show (' ' :: (printVal (d + 1) g.2 ++ '\n' :: (indentC d ++ '}' :: rest))) =
            [' '] ++ (printVal (d + 1) g.2 ++ '\n' :: (indentC d ++ '}' :: rest)) from rfl]
        rw [parseVal_ws_before f _ _ (by intro c hcm; rw [List.mem_singleton.mp hcm]; decide)]
        exact hPx f (d + 1) _ (by omega) hsane.1 (by intro b hb; cases hb; exact ⟨rfl, by decide⟩)
      have hlast := parseFields_last f _ _ _ _ _ _ g.1.data g.2
        (by
          rw [skipWs_ws_before _ (indentC_ws (d + 1)) _]
          exact skipWs_cons_not _ (by decide))
        (parseStrBody_escape g.1.data _)
        (skipWs_cons_not _ (by decide))
        hpv
        (by
          rw [show ('\n' :: (indentC d ++ '}' :: rest)) =
              ('\n' :: indentC d) ++ ('}' :: rest) from by simp [List.cons_append]]
          rw [skipWs_ws_before _ (nl_indent_ws d) _]
          exact skipWs_cons_not _ (by decide))
      rw [hlast]
    | cons g2 gs =>
      have hpf : printFields (d + 1) g (g2 :: gs) ++ '\n' :: (indentC d ++ '}' :: rest) =
          indentC (d + 1) ++ ('"' :: ((g.1.data.map escapeChar).flatten ++
            '"' :: (':' :: (' ' :: (printVal (d + 1) g.2 ++
              ',' :: ('\n' :: (printFields (d + 1) g2 gs ++
                '\n' :: (indentC d ++ '}' :: rest)))))))) := by
        simp only [printFields, strLitChars, List.append_assoc, List.cons_append,
          List.singleton_append, List.nil_append]
      rw [hpf]
      have hpv : parseVal f (' ' :: (printVal (d + 1) g.2 ++
          ',' :: ('\n' :: (printFields (d + 1) g2 gs ++ '\n' :: (indentC d ++ '}' :: rest))))) =
          some (g.2, ',' :: ('\n' :: (printFields (d + 1) g2 gs ++
            '\n' :: (indentC d ++ '}' :: rest)))) := by
        rw [show (' ' :: (printVal (d + 1) g.2 ++ ',' :: ('\n' :: (printFields (d + 1) g2 gs ++
            '\n' :: (indentC d ++ '}' :: rest))))) =
            [' '] ++ (printVal (d + 1) g.2 ++ ',' :: ('\n' :: (printFields (d + 1) g2 gs ++
              '\n' :: (indentC d ++ '}' :: rest)))) from rfl]
        rw [parseVal_ws_before f _ _ (by intro c hcm; rw [List.mem_singleton.mp hcm]; decide)]
        exact hPx f (d + 1) _ (by omega) hsane.1 (by intro b hb; cases hb; exact ⟨rfl, by decide⟩)
      have hstep := parseFields_step f _ _ _ _ _ _ g.1.data g.2
        (by
          rw [skipWs_ws_before _ (indentC_ws (d + 1)) _]
          exact skipWs_cons_not _ (by decide))
        (parseStrBody_escape g.1.data _)
        (skipWs_cons_not _ (by decide))
        hpv
        (skipWs_cons_not _ (by decide))
      rw [hstep]
      rw [show ('\n' :: (printFields (d + 1) g2 gs ++ '\n' :: (indentC d ++ '}' :: rest))) =
          ['\n'] ++ (printFields (d + 1) g2 gs ++ '\n' :: (indentC d ++ '}' :: rest)) from rfl]
      rw [parseFields_ws_before f _ _ (by intro c hcm; rw [List.mem_singleton.mp hcm]; decide)]
      have hQ := (IH (fsize (g2 :: gs)) (by omega)).2.2 g2 gs le_rfl f d rest (by
        simp only [fsize] at hm hfuel ⊢
        omega) hsane.2
      rw [hQ, Option.map_some']

theorem print_length_aux : ∀ n : ℕ,
    (∀ j : Json, jsize j ≤ n → ∀ d, jsize j ≤ (printVal d j).length) ∧
    (∀ (x : Json) (xs : List Json), lsize (x :: xs) ≤ n → ∀ d,
      lsize (x :: xs) ≤ (printItems (d + 1) x xs).length + 1) ∧
    (∀ (f : String × Json) (fs : List (String × Json)), fsize (f :: fs) ≤ n → ∀ d,
      fsize (f :: fs) ≤ (printFields (d + 1) f fs).length + 1) := by
  intro n
  induction n using Nat.strong_induction_on with
  | _ n IH =>
  refine ⟨?_, ?_, ?_⟩
  · intro j hj d
    cases j with
    | str s =>
      have : (printVal d (Json.str s)).length =
          1 + ((s.data.map escapeChar).flatten.length + 1) := by
        simp [printVal, strLitChars]
        omega
      simp only [jsize]
      omega
    | num q =>
      obtain ⟨c, t, hct, -, -, -, -⟩ := decChars_head q
      have : (printVal d (Json.num q)).length = t.length + 1 := by
        simp only [printVal]
        rw [hct]
        simp
      simp only [jsize]
      omega
    | arr l =>
      cases l with
      | nil =>
        simp only [jsize, lsize, printVal]
        decide
      | cons x xs =>
        have hjs : jsize (Json.arr (x :: xs)) = 1 + lsize (x :: xs) := by simp only [jsize]
        have hIH := (IH (lsize (x :: xs)) (by
            have := lsize_pos (x :: xs)
            omega)).2.1 x xs le_rfl d
        have : (printVal d (Json.arr (x :: xs))).length =
            2 + ((printItems (d + 1) x xs).length + (1 + (2 * d + 1))) := by
          simp [printVal, indentC]
          omega
        omega
    | obj l =>
      cases l with
      | nil =>
        simp only [jsize, fsize, printVal]
        decide
      | cons g fs =>
        have hjs : jsize (Json.obj (g :: fs)) = 1 + fsize (g :: fs) := by simp only [jsize]
        have hIH := (IH (fsize (g :: fs)) (by
            have := fsize_pos (g :: fs)
            omega)).2.2 g fs le_rfl d
        have : (printVal d (Json.obj (g :: fs))).length =
            2 + ((printFields (d + 1) g fs).length + (1 + (2 * d + 1))) := by
          simp [printVal, indentC]
          omega
        omega
  · intro x xs hm d
    have hls : lsize (x :: xs) = 1 + jsize x + lsize xs := by simp only [lsize]
    have hxp := jsize_pos x
    have hPx := (IH (jsize x) (by
        have := lsize_pos xs
        omega)).1 x le_rfl (d + 1)
    cases xs with
    | nil =>
      have : (printItems (d + 1) x []).length = 2 * (d + 1) + (printVal (d + 1) x).length := by
        simp [printItems, indentC]
      have h0 : lsize ([] : List Json) = 1 := by simp only [lsize]
      have hgoal : lsize (x :: ([] : List Json)) = 1 + jsize x + lsize ([] : List Json) := by
        simp only [lsize]
      omega
    | cons y ys =>
      have hQ := (IH (lsize (y :: ys)) (by
          simp only [lsize] at hm ⊢
          omega)).2.1 y ys le_rfl d
      have : (printItems (d + 1) x (y :: ys)).length =
          2 * (d + 1) + (printVal (d + 1) x).length + (2 + (printItems (d + 1) y ys).length) := by
        simp [printItems, indentC]
        omega
      have hls2 : lsize (y :: ys) = 1 + jsize y + lsize ys := by simp only [lsize]
      omega
  · intro g fs hm d
    have hfs : fsize (g :: fs) = 1 + jsize g.2 + fsize fs := by simp only [fsize]
    have hxp := jsize_pos g.2
    have hPx := (IH (jsize g.2) (by
        have := fsize_pos fs
        omega)).1 g.2 le_rfl (d + 1)
    cases fs with
    | nil =>
      have : (printFields (d + 1) g []).length = 2 * (d + 1) +
          (1 + ((g.1.data.map escapeChar).flatten.length + 1)) + 2 +
          (printVal (d + 1) g.2).length := by
        simp [printFields, strLitChars, indentC]
        omega
      have h0 : fsize ([] : List (String × Json)) = 1 := by simp only [fsize]
      omega
    | cons g2 gs =>
      have hQ := (IH (fsize (g2 :: gs)) (by
          simp only [fsize] at hm ⊢
          omega)).2.2 g2 gs le_rfl d
      have : (printFields (d + 1) g (g2 :: gs)).length = 2 * (d + 1) +
          (1 + ((g.1.data.map escapeChar).flatten.length + 1)) + 2 +
          (printVal (d + 1) g.2).length + (2 + (printFields (d + 1) g2 gs).length) := by
        simp [printFields, strLitChars, indentC]
        omega
      have hfs2 : fsize (g2 :: gs) = 1 + jsize g2.2 + fsize gs := by simp only [fsize]
      omega

theorem jsonParse_stringify (j : Json) (h : saneVal j = true) :
    jsonParse (jsonStringify j) = some j := by
  have hlen := (print_length_aux (jsize j)).1 j le_rfl 0
  have hp := (parse_print_aux (jsize j)).1 j le_rfl ((printVal 0 j).length + 1) 0 []
    (by omega) h (by intro b hb; cases hb)
  rw [List.append_nil] at hp
  rw [jsonStringify, jsonParse]
  rw [show (String.mk (printVal 0 j)).data = printVal 0 j from rfl, hp]
  rfl

/-! Lemmas: the structural decoding inverts the structural encoding. -/

theorem taskFromJson_toJson (t : Task) : taskFromJson (taskToJson t) = some t := rfl

theorem mapM_taskFromJson (ts : List Task) :
    (ts.map taskToJson).mapM taskFromJson = some ts := by
  induction ts with
  | nil => rfl
  | cons t ts ih =>
    rw [List.map_cons, List.mapM_cons, taskFromJson_toJson, ih]
    rfl

theorem asNat_natCast (n : ℕ) : asNat (Json.num (n : ℚ)) = some n := by
  rw [asNat]
  rw [if_pos ⟨Rat.den_natCast n, by
    rw [Rat.num_natCast]
    exact Int.natCast_nonneg n⟩]
  rw [Rat.num_natCast]
  simp

theorem weekFromJson_toJson (w : Week) : weekFromJson (weekToJson w) = some w := by
  rw [show weekToJson w = Json.obj [("week", Json.num (w.week : ℚ)),
    ("focus", Json.str w.focus), ("hours", Json.num w.hours),
    ("tasks", Json.arr (w.tasks.map taskToJson)),
    ("checkpoint", Json.str w.checkpoint)] from rfl]
  rw [show weekFromJson (Json.obj [("week", Json.num (w.week : ℚ)),
      ("focus", Json.str w.focus), ("hours", Json.num w.hours),
      ("tasks", Json.arr (w.tasks.map taskToJson)),
      ("checkpoint", Json.str w.checkpoint)]) =
    (do
      let wn ← asNat (Json.num (w.week : ℚ))
      let tasks ← (w.tasks.map taskToJson).mapM taskFromJson
      some (⟨wn, w.focus, w.hours, tasks, w.checkpoint⟩ : Week)) from rfl]
  rw [asNat_natCast]
  simp only [bind_some_reduce, Option.some_bind]
  rw [mapM_taskFromJson]
  rfl

theorem mapM_weekFromJson (ws : List Week) :
    (ws.map weekToJson).mapM weekFromJson = some ws := by
  induction ws with
  | nil => rfl
  | cons w ws ih =>
    rw [List.map_cons, List.mapM_cons, weekFromJson_toJson, ih]
    rfl

theorem planFromJson_toJson (p : LearningPlan) : planFromJson (planToJson p) = some p := by
  rw [show planToJson p = Json.obj [("topic", Json.str p.topic), ("level", Json.str p.level),
    ("goal", Json.str p.goal), ("weeks", Json.num (p.weeks : ℚ)),
    ("hours_per_week", Json.num p.hours_per_week),
    ("plan", Json.arr (p.plan.map weekToJson))] from rfl]
  rw [show planFromJson (Json.obj [("topic", Json.str p.topic), ("level", Json.str p.level),
      ("goal", Json.str p.goal), ("weeks", Json.num (p.weeks : ℚ)),
      ("hours_per_week", Json.num p.hours_per_week),
      ("plan", Json.arr (p.plan.map weekToJson))]) =
    (do
      let wn ← asNat (Json.num (p.weeks : ℚ))
      let weeks ← (p.plan.map weekToJson).mapM weekFromJson
      some (⟨p.topic, p.level, p.goal, wn, p.hours_per_week, weeks⟩ : LearningPlan)) from rfl]
  rw [asNat_natCast]
  simp only [bind_some_reduce, Option.some_bind]
  rw [mapM_weekFromJson]
  rfl

/-! Lemmas: every number the generator writes is a finite decimal. -/

theorem decFinite_of_den_dvd_hundred (q : ℚ) (h : q.den ∣ 100) : decFinite q := by
  by_cases h1 : q.den = 1
  · unfold decFinite
    rw [h1]
    exact one_dvd _
  · unfold decFinite
    have h2 : 2 ≤ q.den := by
      have := q.pos
      omega
    exact h.trans (by
      rw [show (100 : ℕ) = 10 ^ 2 from by norm_num]
      exact pow_dvd_pow 10 h2)

theorem den_intCast_div_hundred (k : ℤ) : ((k : ℚ) / 100).den ∣ 100 := by
  have h := Rat.den_dvd k 100
  rw [Rat.divInt_eq_div] at h
  have h2 : ((k : ℚ) / ((100 : ℤ) : ℚ)).den = ((k : ℚ) / (100 : ℚ)).den := by norm_num
  rw [h2] at h
  exact_mod_cast h

theorem den_intCast_div_ten (k : ℤ) : ((k : ℚ) / 10).den ∣ 10 := by
  have h := Rat.den_dvd k 10
  rw [Rat.divInt_eq_div] at h
  have h2 : ((k : ℚ) / ((10 : ℤ) : ℚ)).den = ((k : ℚ) / (10 : ℚ)).den := by norm_num
  rw [h2] at h
  exact_mod_cast h

theorem round100_den (x : ℚ) : (round100 x).den ∣ 100 := by
  rw [round100]
  exact den_intCast_div_hundred _

theorem distributeHours_den (t : ℚ) (c : ℕ) :
    ∀ x ∈ distributeHours t c, x.den ∣ 100 := by
  intro x hx
  rw [distributeHours] at hx
  rcases List.mem_append.mp hx with h | h
  · rw [List.eq_of_mem_replicate h]
    exact (den_intCast_div_ten _).trans (by norm_num)
  · rw [List.mem_singleton.mp h]
    exact den_intCast_div_hundred _

theorem buildWeek_tasks_den (topic goal : String) (hpw : ℚ) (nT appW w idx : ℕ)
    (phase : Phase) :
    ∀ tk ∈ (buildWeek topic goal hpw nT appW w idx phase).tasks,
      tk.effort_hours.den ∣ 100 := by
  intro tk htk
  rw [buildWeek.eq_def] at htk
  dsimp only at htk
  have hsub : ∀ (sel : List Tpl) (hrs : List ℚ),
      tk ∈ List.zipWith (fun t h => (⟨t.title, h, t.deliverable⟩ : Task)) sel hrs →
      tk.effort_hours ∈ hrs := by
    intro sel
    induction sel with
    | nil => intro hrs h; simp at h
    | cons s ss ih =>
      intro hrs h
      cases hrs with
      | nil => simp at h
      | cons hh hs =>
        rw [List.zipWith_cons_cons] at h
        rcases List.mem_cons.mp h with h | h
        · rw [h]
          exact List.mem_cons_self _ _
        · exact List.mem_cons_of_mem _ (ih hs h)
  have hmem := hsub _ _ htk
  exact distributeHours_den _ _ _ hmem

theorem buildWeek_hours_den (topic goal : String) (hpw : ℚ) (nT appW w idx : ℕ)
    (phase : Phase) : (buildWeek topic goal hpw nT appW w idx phase).hours.den ∣ 100 := by
  rw [buildWeek.eq_def]
  exact round100_den _

theorem genLoop_weeks_den (topic goal : String) (hpw : ℚ) (nT appW weeks : ℕ) :
    ∀ (l : List ℕ) (st : PhaseIdx), ∀ wk ∈ genLoop topic goal hpw nT appW weeks l st,
      wk.hours.den ∣ 100 ∧ ∀ tk ∈ wk.tasks, tk.effort_hours.den ∣ 100 := by
  intro l
  induction l with
  | nil => intro st wk hwk; simp [genLoop] at hwk
  | cons w ws ih =>
    intro st wk hwk
    rw [genLoop] at hwk
    rcases List.mem_cons.mp hwk with h | h
    · rw [h]
      exact ⟨buildWeek_hours_den _ _ _ _ _ _ _ _, buildWeek_tasks_den _ _ _ _ _ _ _ _⟩
    · exact ih _ wk h

theorem saneList_all (l : List Json) : saneList l = true ↔ ∀ j ∈ l, saneVal j = true := by
  induction l with
  | nil => simp [saneList]
  | cons x xs ih =>
    rw [saneList, Bool.and_eq_true, ih]
    simp

theorem saneFields_all (l : List (String × Json)) :
    saneFields l = true ↔ ∀ f ∈ l, saneVal f.2 = true := by
  induction l with
  | nil => simp [saneFields]
  | cons x xs ih =>
    rw [saneFields, Bool.and_eq_true, ih]
    simp

theorem saneVal_natCast (n : ℕ) : saneVal (Json.num (n : ℚ)) = true := by
  rw [saneVal]
  exact decide_eq_true (by
    unfold decFinite
    rw [Rat.den_natCast]
    exact one_dvd _)

theorem sane_planToJson (p : LearningPlan) (hhpw : decFinite p.hours_per_week)
    (hinv : ∀ wk ∈ p.plan, wk.hours.den ∣ 100 ∧ ∀ tk ∈ wk.tasks, tk.effort_hours.den ∣ 100) :
    saneVal (planToJson p) = true := by
  rw [planToJson, saneVal, saneFields_all]
  intro f hf
  simp only [List.mem_cons, List.not_mem_nil, or_false] at hf
  rcases hf with rfl | rfl | rfl | rfl | rfl | rfl
  · rfl
  · rfl
  · rfl
  · exact saneVal_natCast p.weeks
  · rw [saneVal]
    exact decide_eq_true hhpw
  · rw [saneVal, saneList_all]
    intro j hj
    rw [List.mem_map] at hj
    obtain ⟨wk, hwk, rfl⟩ := hj
    rw [weekToJson, saneVal, saneFields_all]
    intro g hg
    simp only [List.mem_cons, List.not_mem_nil, or_false] at hg
    rcases hg with rfl | rfl | rfl | rfl | rfl
    · exact saneVal_natCast wk.week
    · rfl
    · rw [saneVal]
      exact decide_eq_true (decFinite_of_den_dvd_hundred _ (hinv wk hwk).1)
    · rw [saneVal, saneList_all]
      intro tj htj
      rw [List.mem_map] at htj
      obtain ⟨tk, htk, rfl⟩ := htj
      rw [taskToJson, saneVal, saneFields_all]
      intro q hq
      simp only [List.mem_cons, List.not_mem_nil, or_false] at hq
      rcases hq with rfl | rfl | rfl
      · rfl
      · rw [saneVal]
        exact decide_eq_true (decFinite_of_den_dvd_hundred _ ((hinv wk hwk).2 tk htk))
      · rfl
    · rfl

/-! Lemmas: the validator accumulates its findings in one ordered list. -/

theorem foldl_accum {α β : Type} (g : α → List β) :
    ∀ (l : List α) (acc : List β),
      l.foldl (fun errs x => errs ++ g x) acc = acc ++ l.flatMap g := by
  intro l
  induction l with
  | nil => intro acc; simp
  | cons x xs ih =>
    intro acc
    rw [List.foldl_cons, ih, List.flatMap_cons, List.append_assoc]

theorem validatePlan_decomp (p : LearningPlan) :
    validatePlan p =
      (if p.plan.length ≠ p.weeks then [weeksMismatchError p.plan.length p.weeks] else []) ++
      p.plan.flatMap (fun wk =>
        (if |round100 (taskSum wk) - round100 wk.hours| > 1/100 then
          [hoursMismatchError wk.week (round100 wk.hours) (round100 (taskSum wk))] else []) ++
        (if round100 wk.hours > p.hours_per_week then
          [hoursExceededError wk.week (round100 wk.hours) p.hours_per_week] else [])) := by
  rw [validatePlan]
  have key : ∀ (l : List Week) (acc : List ValidationError),
      l.foldl (fun errs wk =>
        let roundedSum := round100 (taskSum wk)
        let roundedHours := round100 wk.hours
        let errs :=
          if |roundedSum - roundedHours| > 1/100 then
            errs ++ [hoursMismatchError wk.week roundedHours roundedSum]
          else errs
        if roundedHours > p.hours_per_week then
          errs ++ [hoursExceededError wk.week roundedHours p.hours_per_week]
        else errs) acc =
      acc ++ l.flatMap (fun wk =>
        (if |round100 (taskSum wk) - round100 wk.hours| > 1/100 then
          [hoursMismatchError wk.week (round100 wk.hours) (round100 (taskSum wk))] else []) ++
        (if round100 wk.hours > p.hours_per_week then
          [hoursExceededError wk.week (round100 wk.hours) p.hours_per_week] else [])) := by
    intro l
    induction l with
    | nil => intro acc; simp
    | cons wk ws ih =>
      intro acc
      rw [List.foldl_cons, ih, List.flatMap_cons]
      by_cases c1 : |round100 (taskSum wk) - round100 wk.hours| > 1/100 <;>
        by_cases c2 : round100 wk.hours > p.hours_per_week
      · simp only [if_pos c1, if_pos c2, List.append_assoc]
      · simp only [if_pos c1, if_neg c2, List.append_nil, List.append_assoc]
      · simp only [if_neg c1, if_pos c2, List.nil_append, List.append_assoc]
      · simp only [if_neg c1, if_neg c2, List.append_nil, List.nil_append]
  exact key p.plan _

/-! Lemmas: the mismatch message determines the week number and both rounded
values, because the digit chunks of the message parse back uniquely. -/

theorem natChars_numChar (n : ℕ) : ∀ c ∈ natChars n, numChar c = true := by
  intro c hc
  rw [numChar, natChars_isDigit n c hc]
  rfl

theorem decChars_numChar (q : ℚ) : ∀ c ∈ decChars q, numChar c = true := by
  intro c hc
  rw [decChars] at hc
  rcases List.mem_append.mp hc with h | h
  · split at h
    · rw [List.mem_singleton.mp h]
      decide
    · cases h
  · rw [show decBody ((|q| * 10 ^ q.den).num.toNat) q.den =
        natChars ((|q| * 10 ^ q.den).num.toNat / 10 ^ q.den) ++
          (if (trimZeros ((|q| * 10 ^ q.den).num.toNat % 10 ^ q.den) q.den).2 = 0 then [] else
            '.' :: (List.replicate
                ((trimZeros ((|q| * 10 ^ q.den).num.toNat % 10 ^ q.den) q.den).2 -
                  (natChars (trimZeros ((|q| * 10 ^ q.den).num.toNat % 10 ^ q.den) q.den).1).length)
                '0' ++
              natChars (trimZeros ((|q| * 10 ^ q.den).num.toNat % 10 ^ q.den) q.den).1)) from by
      simp only [decBody]] at h
    rcases List.mem_append.mp h with h2 | h2
    · exact natChars_numChar _ c h2
    · split at h2
      · cases h2
      · rcases List.mem_cons.mp h2 with h3 | h3
        · rw [h3]; decide
        · rcases List.mem_append.mp h3 with h4 | h4
          · rw [List.eq_of_mem_replicate h4]; decide
          · exact natChars_numChar _ c h4

theorem decChars_inj (a b : ℚ) (ha : decFinite a) (hb : decFinite b)
    (h : decChars a = decChars b) : a = b := by
  have h1 := parseNum_decChars a ha [] (by intro x hx; cases hx)
  have h2 := parseNum_decChars b hb [] (by intro x hx; cases hx)
  rw [List.append_nil] at h1 h2
  rw [h, h2] at h1
  have h3 : (b, ([] : List Char)) = (a, []) := Option.some.inj h1
  exact (congrArg Prod.fst h3).symm

theorem natChars_inj (n m : ℕ) (h : natChars n = natChars m) : n = m := by
  have := congrArg charsToNat h
  rwa [charsToNat_natChars, charsToNat_natChars] at this

theorem hoursMismatchError_inj (w1 w2 : ℕ) (a1 b1 a2 b2 : ℚ)
    (ha1 : decFinite a1) (hb1 : decFinite b1) (ha2 : decFinite a2) (hb2 : decFinite b2)
    (h : hoursMismatchError w1 a1 b1 = hoursMismatchError w2 a2 b2) :
    w1 = w2 ∧ a1 = a2 ∧ b1 = b2 := by
  have hmsg := congrArg ValidationError.message h
  simp only [hoursMismatchError] at hmsg
  have hdata := congrArg String.data hmsg
  simp only [String.data_append] at hdata
  rw [show (natStr w1).data = natChars w1 from rfl,
    show (natStr w2).data = natChars w2 from rfl,
    show (decStr a1).data = decChars a1 from rfl,
    show (decStr a2).data = decChars a2 from rfl,
    show (decStr b1).data = decChars b1 from rfl,
    show (decStr b2).data = decChars b2 from rfl] at hdata
  simp only [List.append_assoc, List.cons_append, List.nil_append] at hdata
  simp only [List.cons.injEq, eq_self_iff_true, true_and] at hdata
  have hchunk1 := chunk_inj _ _ _ _
    (natChars_isDigit w1) (natChars_isDigit w2)
    (by
      intro b hb
      rw [List.head?_cons] at hb
      cases Option.some.inj hb
      decide)
    (by
      intro b hb
      rw [List.head?_cons] at hb
      cases Option.some.inj hb
      decide)
    hdata
  have hw := natChars_inj w1 w2 hchunk1.1
  have h2 := hchunk1.2
  simp only [List.cons.injEq, eq_self_iff_true, true_and] at h2
  have hchunk2 := chunk_inj _ _ _ _
    (decChars_numChar a1) (decChars_numChar a2)
    (by
      intro b hb
      rw [List.head?_cons] at hb
      cases Option.some.inj hb
      decide)
    (by
      intro b hb
      rw [List.head?_cons] at hb
      cases Option.some.inj hb
      decide)
    h2
  have ha := decChars_inj a1 a2 ha1 ha2 hchunk2.1
  have h3 := hchunk2.2
  simp only [List.cons.injEq, eq_self_iff_true, true_and] at h3
  have h4 := List.append_cancel_right h3
  have hbv := decChars_inj b1 b2 hb1 hb2 h4
  exact ⟨hw, ha, hbv⟩

theorem decFinite_round100 (x : ℚ) : decFinite (round100 x) :=
  decFinite_of_den_dvd_hundred _ (round100_den x)

theorem validatePlan_mismatch_iff (p : LearningPlan) (wk : Week) (hwk : wk ∈ p.plan) :
    (hoursMismatchError wk.week (round100 wk.hours) (round100 (taskSum wk)) ∈ validatePlan p) ↔
      |round100 (taskSum wk) - round100 wk.hours| > 1/100 := by
  rw [validatePlan_decomp]
  constructor
  · intro hmem
    rcases List.mem_append.mp hmem with h | h
    · by_cases hc : p.plan.length ≠ p.weeks
      · rw [if_pos hc, List.mem_singleton] at h
        have := congrArg ValidationError.type h
        simp [hoursMismatchError, weeksMismatchError] at this
      · rw [if_neg hc] at h
        cases h
    · rw [List.mem_flatMap] at h
      obtain ⟨wk', hwk', hmem'⟩ := h
      rcases List.mem_append.mp hmem' with h2 | h2
      · by_cases c1 : |round100 (taskSum wk') - round100 wk'.hours| > 1/100
        · rw [if_pos c1, List.mem_singleton] at h2
          have hinj := hoursMismatchError_inj _ _ _ _ _ _
            (decFinite_round100 _) (decFinite_round100 _)
            (decFinite_round100 _) (decFinite_round100 _) h2
          rw [hinj.2.1, hinj.2.2]
          exact c1
        · rw [if_neg c1] at h2
          cases h2
      · by_cases c2 : round100 wk'.hours > p.hours_per_week
        · rw [if_pos c2, List.mem_singleton] at h2
          have := congrArg ValidationError.type h2
          simp [hoursMismatchError, hoursExceededError] at this
        · rw [if_neg c2] at h2
          cases h2
  · intro hcond
    apply List.mem_append.mpr
    right
    rw [List.mem_flatMap]
    exact ⟨wk, hwk, List.mem_append.mpr (Or.inl (by
      rw [if_pos hcond]
      exact List.mem_singleton.mpr rfl))⟩

/-! Lemmas: the ratio tests of phaseOf agree with their integer
reformulation, and the phase sequence is monotone. -/

theorem phaseOf_eq_phaseSpec (w total : ℕ) (h1 : 1 ≤ w) (h2 : w ≤ total) :
    phaseOf w total = phaseSpec w total := by
  simp only [phaseOf, phaseSpec]
  by_cases ht1 : total = 1
  · simp only [if_pos ht1]
  · simp only [if_neg ht1]
    by_cases ht2 : total = 2
    · simp only [if_pos ht2]
    · simp only [if_neg ht2]
      have htpos : 0 < total := by omega
      have htQ : (0 : ℚ) < (total : ℚ) := by exact_mod_cast htpos
      have hiff1 : ((w : ℚ) / (total : ℚ) ≤ 1/3) ↔ 3 * w ≤ total := by
        rw [div_le_div_iff htQ (by norm_num : (0:ℚ) < 3)]
        constructor
        · intro h
          have h3 : ((3 * w : ℕ) : ℚ) ≤ ((total : ℕ) : ℚ) := by push_cast; linarith
          exact_mod_cast h3
        · intro h
          have h3 : ((3 * w : ℕ) : ℚ) ≤ ((total : ℕ) : ℚ) := by exact_mod_cast h
          push_cast at h3
          linarith
      have hiff2 : ((w : ℚ) / (total : ℚ) ≤ 2/3) ↔ 3 * w ≤ 2 * total := by
        rw [div_le_div_iff htQ (by norm_num : (0:ℚ) < 3)]
        constructor
        · intro h
          have h3 : ((3 * w : ℕ) : ℚ) ≤ ((2 * total : ℕ) : ℚ) := by push_cast; linarith
          exact_mod_cast h3
        · intro h
          have h3 : ((3 * w : ℕ) : ℚ) ≤ ((2 * total : ℕ) : ℚ) := by exact_mod_cast h
          push_cast at h3
          linarith
      by_cases hc1 : 3 * w ≤ total
      · simp only [if_pos (hiff1.mpr hc1), if_pos hc1]
      · simp only [if_neg (fun hq => hc1 (hiff1.mp hq)), if_neg hc1]
        by_cases hc2 : 3 * w ≤ 2 * total
        · simp only [if_pos (hiff2.mpr hc2), if_pos hc2]
        · simp only [if_neg (fun hq => hc2 (hiff2.mp hq)), if_neg hc2]

/-! Lemmas: the generator's loop numbers the produced weeks by the list of
week numbers it walks over. -/

theorem genLoop_week_map (topic goal : String) (hpw : ℚ) (nTasks appWeekCount weeks : ℕ) :
    ∀ (l : List ℕ) (st : PhaseIdx),
      (genLoop topic goal hpw nTasks appWeekCount weeks l st).map (fun wk => wk.week) = l := by
  intro l
  induction l with
  | nil => intro st; rfl
  | cons w ws ih =>
    intro st
    simp only [genLoop, List.map_cons]
    rw [ih]
    rfl

/-! Bridges: projections of generatePlan reduce to their components. -/

theorem generatePlan_plan_eq (inputs : PlanInputs) :
    (generatePlan inputs).plan.plan =
      genLoop inputs.topic inputs.goal inputs.hours_per_week
        (tasksPerWeek inputs.hours_per_week)
        (((weekNumbers inputs.weeks).filter
          (fun w => decide (phaseOf w inputs.weeks = Phase.application))).length)
        inputs.weeks (weekNumbers inputs.weeks) ⟨0, 0, 0⟩ := rfl

theorem generatePlan_rawJson_eq (inputs : PlanInputs) :
    (generatePlan inputs).rawJson = jsonStringify (planToJson (generatePlan inputs).plan) := rfl

theorem generatePlan_hpw_eq (inputs : PlanInputs) :
    (generatePlan inputs).plan.hours_per_week = inputs.hours_per_week := rfl

/-! The claims. -/

unseal Rat.add Rat.mul Rat.sub Rat.inv in
/-- C1: the claim that validatePlan returns the empty sequence on every
generated plan is refuted by the positive inputs weeks = 1,
hours_per_week = 3.006: distributeHours rounds the two buckets to 1.5 and
1.51, the week's hours become 3.01 > 3.006, and the validator reports an
hours_exceeded error. -/
theorem C1_validate_generated_counterexample :
    1 ≤ inputsThreePointOhOhSix.weeks ∧ 0 < inputsThreePointOhOhSix.hours_per_week ∧
    (validatePlan (generatePlan inputsThreePointOhOhSix).plan).map (fun e => e.type) =
      [ValidationErrorType.hours_exceeded] :=
  ⟨by decide, by decide, by decide⟩

/-- C2: for positive weeks and positive hours_per_week the generated plan has
exactly weeks entries, and its entries are numbered 1..weeks sequentially. -/
theorem C2_week_numbering (inputs : PlanInputs) (h1 : 1 ≤ inputs.weeks)
    (h2 : 0 < inputs.hours_per_week) :
    (generatePlan inputs).plan.plan.length = inputs.weeks ∧
    (generatePlan inputs).plan.plan.map (fun wk => wk.week) =
      (List.range inputs.weeks).map (fun k => k + 1) := by
  have hmap : (generatePlan inputs).plan.plan.map (fun wk => wk.week) =
      weekNumbers inputs.weeks := by
    rw [generatePlan_plan_eq]
    exact genLoop_week_map _ _ _ _ _ _ _ _
  refine ⟨?_, ?_⟩
  · have hlen := congrArg List.length hmap
    rw [List.length_map] at hlen
    rw [hlen, weekNumbers, List.length_map, List.length_range]
  · rw [hmap, weekNumbers]

theorem C2_week_numbering_witness :
    1 ≤ exampleInputs.weeks ∧ 0 < exampleInputs.hours_per_week ∧
    ((generatePlan exampleInputs).plan.plan.length = exampleInputs.weeks ∧
     (generatePlan exampleInputs).plan.plan.map (fun wk => wk.week) =
       (List.range exampleInputs.weeks).map (fun k => k + 1)) :=
  ⟨by decide, by decide, C2_week_numbering exampleInputs (by decide) (by decide)⟩

unseal Rat.add Rat.mul Rat.sub Rat.inv in
/-- C3: the claim that every generated week's hours field equals
hours_per_week is refuted at weeks = 1, hours_per_week = 3.006: the only
generated week records hours 3.01, which differs from 3.006. -/
theorem C3_week_hours_counterexample :
    1 ≤ inputsThreePointOhOhSix.weeks ∧ 0 < inputsThreePointOhOhSix.hours_per_week ∧
    (generatePlan inputsThreePointOhOhSix).plan.plan.map (fun wk => wk.hours) = [301/100] ∧
    (301/100 : ℚ) ≠ inputsThreePointOhOhSix.hours_per_week :=
  ⟨by decide, by decide, by decide, by decide⟩

unseal Rat.add Rat.mul Rat.sub Rat.inv in
/-- C4: the claim that every task of every generated plan has strictly
positive effort_hours is refuted at weeks = 1, hours_per_week = 0.1: the two
buckets come out as 0.1 and 0, so the second task has effort_hours 0. -/
theorem C4_positive_effort_counterexample :
    1 ≤ inputsTenthHour.weeks ∧ 0 < inputsTenthHour.hours_per_week ∧
    (generatePlan inputsTenthHour).plan.plan.map
      (fun wk => wk.tasks.map (fun t => t.effort_hours)) = [[1/10, 0]] ∧
    (generatePlan inputsTenthHour).plan.plan.map
      (fun wk => wk.tasks.map (fun t => decide (0 < t.effort_hours))) = [[true, false]] :=
  ⟨by decide, by decide, by decide, by decide⟩

/-- C5: for every week number w in 1..total, phaseOf follows the spec's
rule exactly: total = 1 gives application; total = 2 gives foundation for
week 1 and application otherwise; for total ≥ 3 the ratio w / total
classifies into foundation (≤ 1/3), development (≤ 2/3), else
application — stated via phaseSpec, the integer reformulation of that
rule. -/
theorem C5_phase_rule (w total : ℕ) (h1 : 1 ≤ w) (h2 : w ≤ total) :
    phaseOf w total = phaseSpec w total :=
  phaseOf_eq_phaseSpec w total h1 h2

theorem C5_phase_rule_witness :
    1 ≤ 2 ∧ 2 ≤ 7 ∧ phaseOf 2 7 = phaseSpec 2 7 :=
  ⟨by decide, by decide, C5_phase_rule 2 7 (by decide) (by decide)⟩

/-- C6: for every plan and every week in it, the validator emits the
hours_mismatch error naming that week's number and both two-decimal
roundings exactly when the rounded values differ by more than 0.01. -/
theorem C6_mismatch_iff (p : LearningPlan) (wk : Week) (hwk : wk ∈ p.plan) :
    (hoursMismatchError wk.week (round100 wk.hours) (round100 (taskSum wk)) ∈
      validatePlan p) ↔
      |round100 (taskSum wk) - round100 wk.hours| > 1/100 :=
  validatePlan_mismatch_iff p wk hwk

theorem C6_mismatch_iff_witness :
    exampleMismatchWeek ∈ exampleMismatchPlan.plan ∧
    ((hoursMismatchError exampleMismatchWeek.week (round100 exampleMismatchWeek.hours)
        (round100 (taskSum exampleMismatchWeek)) ∈ validatePlan exampleMismatchPlan) ↔
      |round100 (taskSum exampleMismatchWeek) - round100 exampleMismatchWeek.hours| > 1/100) :=
  ⟨by decide, C6_mismatch_iff exampleMismatchPlan exampleMismatchWeek (by decide)⟩

/-- C7: validatePlan never short-circuits: its output is exactly the
weeks-count error (if any) first, then, per week in plan order, the
hours_mismatch error (if it fires) followed by the hours_exceeded error
(if it fires). -/
theorem C7_accumulation_order (p : LearningPlan) :
    validatePlan p =
      (if p.plan.length ≠ p.weeks then [weeksMismatchError p.plan.length p.weeks] else []) ++
      p.plan.flatMap (fun wk =>
        (if |round100 (taskSum wk) - round100 wk.hours| > 1/100 then
          [hoursMismatchError wk.week (round100 wk.hours) (round100 (taskSum wk))] else []) ++
        (if round100 wk.hours > p.hours_per_week then
          [hoursExceededError wk.week (round100 wk.hours) p.hours_per_week] else [])) :=
  validatePlan_decomp p

/-- C8: fixPlan ignores the error list entirely and returns exactly
generatePlan of the same inputs. -/
theorem C8_fixPlan_is_generatePlan (inputs : PlanInputs) (errors : List String) :
    fixPlan inputs errors = generatePlan inputs := rfl

/-- C9: for positive weeks and positive finite-decimal hours_per_week (every
JavaScript number is a finite decimal), parsing the rawJson text returned by
generatePlan yields exactly the JSON tree of the plan returned alongside it,
and that tree decodes back to the very same plan value. -/
theorem C9_rawJson_round_trip (inputs : PlanInputs) (h1 : 1 ≤ inputs.weeks)
    (h2 : 0 < inputs.hours_per_week) (hfin : decFinite inputs.hours_per_week) :
    jsonParse (generatePlan inputs).rawJson =
      some (planToJson (generatePlan inputs).plan) ∧
    planFromJson (planToJson (generatePlan inputs).plan) =
      some (generatePlan inputs).plan := by
  constructor
  · rw [generatePlan_rawJson_eq]
    apply jsonParse_stringify
    apply sane_planToJson
    · rw [generatePlan_hpw_eq]
      exact hfin
    · intro wk hwk
      rw [generatePlan_plan_eq] at hwk
      exact genLoop_weeks_den _ _ _ _ _ _ _ _ wk hwk
  · exact planFromJson_toJson _

theorem C9_rawJson_round_trip_witness :
    1 ≤ exampleInputs.weeks ∧ 0 < exampleInputs.hours_per_week ∧
    decFinite exampleInputs.hours_per_week ∧
    (jsonParse (generatePlan exampleInputs).rawJson =
       some (planToJson (generatePlan exampleInputs).plan) ∧
     planFromJson (planToJson (generatePlan exampleInputs).plan) =
       some (generatePlan exampleInputs).plan) :=
  ⟨by decide, by decide, by decide,
    C9_rawJson_round_trip exampleInputs (by decide) (by decide) (by decide)⟩

/-- C10: phase assignment is monotone in the week number (in the order
foundation < development < application, tracked by phaseRank), and the final
week is always an application week. -/
theorem C10_phase_monotone (total w1 w2 : ℕ) (h1 : 1 ≤ w1) (h12 : w1 ≤ w2)
    (h2 : w2 ≤ total) :
    phaseRank (phaseOf w1 total) ≤ phaseRank (phaseOf w2 total) ∧
    phaseOf total total = Phase.application := by
  have hw1 : 1 ≤ w2 := le_trans h1 h12
  have hw1t : w1 ≤ total := le_trans h12 h2
  have htot : 1 ≤ total := le_trans hw1 h2
  rw [phaseOf_eq_phaseSpec w1 total h1 hw1t, phaseOf_eq_phaseSpec w2 total hw1 h2,
    phaseOf_eq_phaseSpec total total htot le_rfl]
  constructor
  · simp only [phaseSpec]
    by_cases ht1 : total = 1
    · simp only [if_pos ht1]
      exact le_rfl
    · simp only [if_neg ht1]
      by_cases ht2 : total = 2
      · simp only [if_pos ht2]
        by_cases hw11 : w1 = 1
        · simp only [if_pos hw11, phaseRank]
          exact Nat.zero_le _
        · simp only [if_neg hw11, if_neg (show ¬ w2 = 1 by omega)]
          exact le_rfl
      · simp only [if_neg ht2]
        by_cases a2 : 3 * w2 ≤ total
        · simp only [if_pos (show 3 * w1 ≤ total by omega), if_pos a2]
          exact le_rfl
        · by_cases a1 : 3 * w1 ≤ total
          · simp only [if_pos a1, if_neg a2, phaseRank]
            exact Nat.zero_le _
          · simp only [if_neg a1, if_neg a2]
            by_cases b2 : 3 * w2 ≤ 2 * total
            · simp only [if_pos (show 3 * w1 ≤ 2 * total by omega), if_pos b2]
              exact le_rfl
            · simp only [if_neg b2]
              by_cases b1 : 3 * w1 ≤ 2 * total
              · simp only [if_pos b1, phaseRank]
                omega
              · simp only [if_neg b1]
                exact le_rfl
  · simp only [phaseSpec]
    by_cases ht1 : total = 1
    · simp only [if_pos ht1]
    · simp only [if_neg ht1]
      by_cases ht2 : total = 2
      · simp only [if_pos ht2]
      · simp only [if_neg ht2]
        rw [if_neg (show ¬ 3 * total ≤ total by omega),
          if_neg (show ¬ 3 * total ≤ 2 * total by omega)]

theorem C10_phase_monotone_witness :
    1 ≤ 2 ∧ 2 ≤ 5 ∧ 5 ≤ 7 ∧
    (phaseRank (phaseOf 2 7) ≤ phaseRank (phaseOf 5 7) ∧ phaseOf 7 7 = Phase.application) :=
  ⟨by decide, by decide, by decide, C10_phase_monotone 7 2 5 (by decide) (by decide) (by decide)⟩

end LearnPlan
